import Mathlib

/-!
# tutorial-manager: the client-side data layer of `src/App.js`

A shallow embedding of the data layer of the `App` component: the values held in
the three collections, the two mutations (`addStudent`, `addFee`), the derived
views (`getStudentName`, `filteredFees`, the revenue total) and the load / persist
pair around `localStorage`.

Conventions of the embedding.

* JavaScript values that can live in the collections are the JSON-representable
  ones (`JSValue`); `undefined` is `none` of `Option JSValue`.
* The numbers stored in the collections are integral (`JSValue.num`: timestamps of
  `Date.now()`, seeded fees). The arithmetic of the revenue total is binary64: a
  result of `Number(...)` or `+` is a `JSNum`, a finite value being counted exactly
  in units of `2^-1074`, with round to nearest, ties to even.
* A JavaScript string is a Lean `String` (a sequence of Unicode scalar values).
* Code that can throw returns `Except JSError _`. `JSError.outsideModel` is not a
  JavaScript error: it marks an input on which the embedding does not say what
  the program does.
* The clock (`Date.now()`), the date text (`toLocaleDateString()`), the submitted
  form and `String.prototype.toLowerCase` are inputs of the definitions.
-/

namespace TutorialManager

/-! ## Values -/

/-- JSON-representable JavaScript values. -/
inductive JSValue where
  | null
  | bool (b : Bool)
  | num (n : Int)
  | str (s : String)
  | arr (items : List JSValue)
  | obj (props : List (String × JSValue))

/-- Outcomes other than a normal return. -/
inductive JSError where
  | typeError
  | syntaxError
  | outsideModel
  deriving DecidableEq, Repr

open JSValue JSError

/-- The decimal digit character of `d < 10`. -/
def digitChar (d : Nat) : Char := Char.ofNat (48 + d)

/-- Decimal digits of `n`, most significant first; `fuel` bounds the number of digits. -/
def natDigits : Nat → Nat → List Char
  | 0, _ => []
  | fuel + 1, n =>
    if n < 10 then [digitChar n]
    else natDigits fuel (n / 10) ++ [digitChar (n % 10)]

/-- Decimal representation of a natural number (`"0"` for zero). -/
def natToChars (n : Nat) : List Char := natDigits (n + 1) n

/-- `Number::toString` on an integral value: plain decimal digits, `-` in front of a
negative one. -/
def intToChars : Int → List Char
  | Int.ofNat n => natToChars n
  | Int.negSucc n => '-' :: natToChars (n + 1)

/-- ToBoolean: the falsy values are `null`, `false`, `0` and `""`. -/
def truthy : JSValue → Bool
  | null => false
  | .bool b => b
  | num n => n != 0
  | str s => s != ""
  | arr _ => true
  | obj _ => true

/-- Property read `v.key` for the property names this program reads (`id`, `name`,
`studentId`, `method`, `amount`): none of them is inherited, so the read yields the
own property of an object and `undefined` (`none`) on every other non-null value.
Reading a property of `null` throws. -/
def getProp (v : JSValue) (key : String) : Except JSError (Option JSValue) :=
  match v with
  | null => .error typeError
  | obj props => .ok (props.lookup key)
  | _ => .ok none

/-- The largest safe integer, `2^53 - 1`. -/
def maxSafeInteger : Nat := 9007199254740991

/-- Method call `x.toString()`: throws on `undefined` and `null`; the string itself,
`true` / `false`, and the decimal digits of a safe integer (`Date.now()` always is one).
Beyond the safe range `Number.prototype.toString` prints the shortest digits that read back
to the same binary64 value, and exponent notation from `1e21` on: those numbers, and arrays
and objects as identifiers, are not covered. -/
def toStringMethod : Option JSValue → Except JSError String
  | none => .error typeError
  | some null => .error typeError
  | some (.bool b) => .ok (if b then "true" else "false")
  | some (num n) =>
    if n.natAbs ≤ maxSafeInteger then .ok (String.mk (intToChars n)) else .error outsideModel
  | some (str s) => .ok s
  | some (arr _) => .error outsideModel
  | some (obj _) => .error outsideModel

/-! ## Logic helpers of `App` -/

/-- The call `students.find(s => s.id.toString() === id.toString())`: the first element on
which the callback returns true, `undefined` when there is none. The callback is not run on
an empty array. -/
def findStudent (id : Option JSValue) : List JSValue → Except JSError (Option JSValue)
  | [] => .ok none
  | s :: rest =>
    match getProp s "id" with
    | .error e => .error e
    | .ok sid =>
      match toStringMethod sid with
      | .error e => .error e
      | .ok a =>
        match toStringMethod id with
        | .error e => .error e
        | .ok b => if a = b then .ok (some s) else findStudent id rest

/-- The function `getStudentName` (App.js line 57):
`students.find(...)?.name || 'Unknown'`. -/
def getStudentName (students : List JSValue) (id : Option JSValue) : Except JSError JSValue :=
  match findStudent id students with
  | .error e => .error e
  | .ok none => .ok (str "Unknown")
  | .ok (some s) =>
    match getProp s "name" with
    | .error e => .error e
    | .ok none => .ok (str "Unknown")
    | .ok (some v) => if truthy v then .ok v else .ok (str "Unknown")

/-- `String.prototype.includes`: `needle` occurs as a contiguous run in `hay`. -/
def includesChars (needle : List Char) : List Char → Bool
  | [] => needle.isEmpty
  | c :: cs => needle.isPrefixOf (c :: cs) || includesChars needle cs

/-- `hay.includes(needle)`. -/
def includes (hay needle : String) : Bool := includesChars needle.data hay.data

/-- Strict equality `v === s` against a string: true exactly on the same string. -/
def strictEqualsStr (v : Option JSValue) (s : String) : Bool :=
  match v with
  | some (str t) => t == s
  | _ => false

/-- `Array.prototype.filter` with a callback that can throw. -/
def filterE {α ε : Type} (p : α → Except ε Bool) : List α → Except ε (List α)
  | [] => .ok []
  | x :: xs =>
    match p x with
    | .error e => .error e
    | .ok b =>
      match filterE p xs with
      | .error e => .error e
      | .ok r => .ok (if b then x :: r else r)

/-- The callback of `filteredFees` (App.js lines 60-62). Both constants are computed
before the conjunction, so the name lookup runs on every fee. -/
def feeMatches (toLowerCase : String → String) (students : List JSValue)
    (method searchTerm : String) (f : JSValue) : Except JSError Bool :=
  let matchesMethod : Except JSError Bool :=
    if method = "all" then .ok true
    else
      match getProp f "method" with
      | .error e => .error e
      | .ok m => .ok (strictEqualsStr m method)
  match matchesMethod with
  | .error e => .error e
  | .ok mm =>
    match getProp f "studentId" with
    | .error e => .error e
    | .ok sid =>
      match getStudentName students sid with
      | .error e => .error e
      | .ok (str n) => .ok (mm && includes (toLowerCase n) (toLowerCase searchTerm))
      | .ok _ => .error typeError

/-- The derived view `filteredFees` (App.js lines 59-63). -/
def filteredFees (toLowerCase : String → String) (students fees : List JSValue)
    (method searchTerm : String) : Except JSError (List JSValue) :=
  filterE (feeMatches toLowerCase students method searchTerm) fees

/-! ## Mutations -/

/-- The entry list of a submitted form: `(name, value)` pairs in tree order. All controls of
the two forms are text-valued. -/
abbrev FormData := List (String × String)

/-- `formData.get(name)`: the value of the first entry with that name, `null` when the form
submitted no such entry (a `select` without options submits none). -/
def formDataGet (formData : FormData) (name : String) : JSValue :=
  match formData.lookup name with
  | some v => str v
  | none => null

/-- The record built by `addStudent` (App.js lines 31-37); `now` is `Date.now()` and `today`
is `new Date().toLocaleDateString()`. -/
def newStudent (now : Int) (today : String) (formData : FormData) : JSValue :=
  obj [("id", num now),
       ("name", formDataGet formData "name"),
       ("courseId", formDataGet formData "courseId"),
       ("phone", formDataGet formData "phone"),
       ("joinedDate", str today)]

/-- The handler `addStudent` (App.js lines 28-40): `setStudents([...students, newStudent])`. -/
def addStudent (now : Int) (today : String) (formData : FormData)
    (students : List JSValue) : List JSValue :=
  students ++ [newStudent now today formData]

/-- The record built by `addFee` (App.js lines 45-52). -/
def newFee (now : Int) (today : String) (formData : FormData) : JSValue :=
  obj [("id", num now),
       ("studentId", formDataGet formData "studentId"),
       ("amount", formDataGet formData "amount"),
       ("month", formDataGet formData "month"),
       ("method", formDataGet formData "method"),
       ("date", str today)]

/-- The handler `addFee` (App.js lines 42-55): `setFees([...fees, newFee])`. -/
def addFee (now : Int) (today : String) (formData : FormData)
    (fees : List JSValue) : List JSValue :=
  fees ++ [newFee now today formData]

/-- A run of `addStudent` calls, one per `(Date.now(), toLocaleDateString(), form)` triple. -/
def addStudents (calls : List (Int × String × FormData)) (students : List JSValue) :
    List JSValue :=
  calls.foldl (fun acc c => addStudent c.1 c.2.1 c.2.2 acc) students

/-! ## Number values and the revenue total -/

/-- Number values. Every finite binary64 value is an integer multiple of `2^-1074`, the
smallest subnormal: `fin k` is the value `k * 2^-1074`. The two zeros are one value here:
the total starts from `+0`, and adding `-0` to any value leaves it unchanged. -/
inductive JSNum where
  | fin (k : Int)
  | inf (negative : Bool)
  | nan
  deriving DecidableEq

/-- The number of units `2^-1074` in `1`. -/
def unitsPerOne : Nat := 2 ^ 1074

/-- The Number value of an integer that binary64 represents exactly. -/
def JSNum.ofInt (n : Int) : JSNum := .fin (n * unitsPerOne)

/-- Number of binary digits of `n`, for `n` of at most `fuel` binary digits. -/
def bitLengthAux : Nat → Nat → Nat
  | 0, _ => 0
  | fuel + 1, n => if n = 0 then 0 else bitLengthAux fuel (n / 2) + 1

/-- Round the non-negative ratio `n / d`, counted in units of `2^-1074`, to 53 significant
binary digits, to nearest and ties to even; the result is again a count of units. Below
`2^53` units (the subnormal range and the lowest binade) the spacing is one unit. -/
def roundUnits (n d : Nat) : Nat :=
  let shift := bitLengthAux 2098 (n / d) - 53
  let unit := d * 2 ^ shift
  let base := n / unit
  let rem := n % unit
  if unit < 2 * rem ∨ (2 * rem = unit ∧ base % 2 = 1) then (base + 1) * 2 ^ shift
  else base * 2 ^ shift

/-- The binary64 value nearest to the ratio `n / d` of units, with the given sign: a magnitude
that rounds to `2^1024` or more (`2^2098` units) is an infinity. -/
def roundBinary64 (negative : Bool) (n d : Nat) : JSNum :=
  if 2 ^ 2098 ≤ n / d then .inf negative
  else
    let r := roundUnits n d
    if 2 ^ 2098 ≤ r then .inf negative
    else .fin (if negative then -(r : Int) else (r : Int))

/-- Numeric addition `a + b` of binary64 values: the exact sum of two finite values, rounded;
infinities of opposite sign give `NaN`; `NaN` is absorbing. -/
def numAdd : JSNum → JSNum → JSNum
  | .fin a, .fin b => roundBinary64 (decide (a + b < 0)) (a + b).natAbs 1
  | .inf x, .inf y => if x = y then .inf x else .nan
  | .inf x, .fin _ => .inf x
  | .fin _, .inf y => .inf y
  | _, _ => .nan

/-- StrWhiteSpaceChar of the StringToNumber grammar. -/
def isStrWhiteSpace (c : Char) : Bool :=
  let n := c.toNat
  (9 ≤ n && n ≤ 13) || n = 32 || n = 160 || n = 5760 || (8192 ≤ n && n ≤ 8202) ||
    n = 8232 || n = 8233 || n = 8239 || n = 8287 || n = 12288 || n = 65279

/-- Strip leading and trailing StrWhiteSpaceChar. -/
def trimChars (cs : List Char) : List Char :=
  ((cs.dropWhile isStrWhiteSpace).reverse.dropWhile isStrWhiteSpace).reverse

/-- Value of a run of decimal digits. -/
def digitsToNat (ds : List Char) : Nat :=
  ds.foldl (fun acc c => acc * 10 + (c.toNat - 48)) 0

/-- Value of a hexadecimal digit. -/
def hexVal (c : Char) : Option Nat :=
  let n := c.toNat
  if 48 ≤ n ∧ n ≤ 57 then some (n - 48)
  else if 97 ≤ n ∧ n ≤ 102 then some (n - 87)
  else if 65 ≤ n ∧ n ≤ 70 then some (n - 55)
  else none

/-- Value of a run of digits in base `b` (2, 8 or 16), `none` when a character is not a
digit of that base or the run is empty. -/
def radixToNat (b : Nat) (ds : List Char) : Option Nat :=
  if ds.isEmpty then none
  else ds.foldl (fun acc c =>
    match acc, hexVal c with
    | some a, some d => if d < b then some (a * b + d) else none
    | _, _ => none) (some 0)

/-- Take an optional sign off the front: `true` for `-`. -/
def splitSign : List Char → Bool × List Char
  | [] => (false, [])
  | c :: r => if c = '-' then (true, r) else if c = '+' then (false, r) else (false, c :: r)

/-- ExponentPart of the StringToNumber grammar, read to the end of the text: nothing (exponent
`0`), or `e` / `E`, an optional sign and digits. -/
def parseExponent : List Char → Option Int
  | [] => some 0
  | mark :: rest =>
    if mark = 'e' ∨ mark = 'E' then
      match splitSign rest with
      | (negative, ds) =>
        if ds.isEmpty = false ∧ ds.all Char.isDigit = true then
          some (if negative then -(digitsToNat ds : Int) else (digitsToNat ds : Int))
        else none
    else none

/-- The parts of a StrUnsignedDecimalLiteral other than `Infinity`. -/
structure DecimalParts where
  intDigits : List Char
  fracDigits : List Char
  exponent : Int

/-- StrUnsignedDecimalLiteral other than `Infinity`, the whole text: digits with an optional
fraction and an optional exponent, or a fraction that starts with the point. -/
def parseUnsignedDecimal (cs : List Char) : Option DecimalParts :=
  match cs.span Char.isDigit with
  | (ip, rest) =>
    match rest with
    | [] => if ip.isEmpty then none else some ⟨ip, [], 0⟩
    | c :: r =>
      if c = '.' then
        match r.span Char.isDigit with
        | (fp, r2) =>
          if ip.isEmpty = true ∧ fp.isEmpty = true then none
          else
            match parseExponent r2 with
            | some e => some ⟨ip, fp, e⟩
            | none => none
      else if ip.isEmpty then none
      else
        match parseExponent (c :: r) with
        | some e => some ⟨ip, [], e⟩
        | none => none

/-- The Number value of a decimal literal: its mathematical value, digits times
`10^(exponent - number of fraction digits)`, rounded to binary64. (ECMAScript lets an engine
drop digits after the 20th significant one; the exact rounding of current engines is taken.) -/
def decimalToNumber (negative : Bool) (p : DecimalParts) : JSNum :=
  let m := digitsToNat (p.intDigits ++ p.fracDigits)
  let e : Int := p.exponent - (p.fracDigits.length : Int)
  roundBinary64 negative (m * 10 ^ e.toNat * unitsPerOne) (10 ^ (-e).toNat)

/-- StringToNumber: the text is trimmed; the empty text is `0`; a decimal literal with an
optional sign is its rounded value; `Infinity` with an optional sign is an infinity; an
unsigned binary, octal or hexadecimal integer literal is its rounded value; any other text is
`NaN`. -/
def strToNumber (s : String) : JSNum :=
  let cs := trimChars s.data
  if cs.isEmpty then .fin 0
  else
    match splitSign cs with
    | (negative, body) =>
      match parseUnsignedDecimal body with
      | some p => decimalToNumber negative p
      | none =>
        if body = ['I', 'n', 'f', 'i', 'n', 'i', 't', 'y'] then .inf negative
        else
          match cs with
          | '0' :: x :: ds =>
            let base : Nat :=
              if x = 'x' || x = 'X' then 16 else if x = 'o' || x = 'O' then 8
              else if x = 'b' || x = 'B' then 2 else 0
            (match radixToNat base ds with
             | some n => roundBinary64 false (n * unitsPerOne) 1
             | none => .nan)
          | _ => .nan

/-- The coercion `Number(v)`: `undefined` is `NaN`, `null` is `0`, `false` / `true` are `0` / `1`,
a number is itself, a string goes through StringToNumber. Arrays and objects as amounts are
not covered. -/
def toNumber : Option JSValue → Except JSError JSNum
  | none => .ok .nan
  | some null => .ok (.fin 0)
  | some (.bool b) => .ok (if b then JSNum.ofInt 1 else .fin 0)
  | some (num n) => .ok (roundBinary64 (decide (n < 0)) (n.natAbs * unitsPerOne) 1)
  | some (str s) => .ok (strToNumber s)
  | some (arr _) => .error outsideModel
  | some (obj _) => .error outsideModel

/-- The loop of `fees.reduce((acc, curr) => acc + Number(curr.amount), acc0)`. -/
def reduceRevenue (acc : JSNum) : List JSValue → Except JSError JSNum
  | [] => .ok acc
  | curr :: rest =>
    match getProp curr "amount" with
    | .error e => .error e
    | .ok a =>
      match toNumber a with
      | .error e => .error e
      | .ok x => reduceRevenue (numAdd acc x) rest

/-- The dashboard total (App.js line 109): `fees.reduce(..., 0)`. -/
def totalRevenue (fees : List JSValue) : Except JSError JSNum :=
  reduceRevenue (.fin 0) fees

/-! ## JSON text -/

/-- Lower-case hexadecimal digit of `d < 16`. -/
def hexDigitChar (d : Nat) : Char :=
  if d < 10 then Char.ofNat (48 + d) else Char.ofNat (87 + d)

/-- QuoteJSONString on one code point: the two-character escapes, `\u00xx` for the other
control characters, the character itself otherwise. -/
def quoteChar (c : Char) : List Char :=
  if c = '"' then ['\\', '"']
  else if c = '\\' then ['\\', '\\']
  else if c.toNat = 8 then ['\\', 'b']
  else if c.toNat = 9 then ['\\', 't']
  else if c.toNat = 10 then ['\\', 'n']
  else if c.toNat = 12 then ['\\', 'f']
  else if c.toNat = 13 then ['\\', 'r']
  else if c.toNat < 32 then
    ['\\', 'u', '0', '0', hexDigitChar (c.toNat / 16), hexDigitChar (c.toNat % 16)]
  else [c]

/-- Body of a quoted string followed by the closing quote. -/
def quoteBody : List Char → List Char
  | [] => ['"']
  | c :: cs => quoteChar c ++ quoteBody cs

/-- QuoteJSONString. -/
def quoteJSONString (s : String) : List Char := '"' :: quoteBody s.data

mutual
/-- SerializeJSONProperty without indentation, on JSON-representable values. -/
def stringifyValue : JSValue → List Char
  | null => ['n', 'u', 'l', 'l']
  | .bool b => if b then ['t', 'r', 'u', 'e'] else ['f', 'a', 'l', 's', 'e']
  | num n => intToChars n
  | str s => quoteJSONString s
  | arr [] => ['[', ']']
  | arr (x :: xs) => '[' :: (stringifyValue x ++ stringifyItems xs)
  | obj [] => ['\x7b', '\x7d']
  | obj ((k, v) :: ps) =>
    '\x7b' :: (quoteJSONString k ++ ':' :: (stringifyValue v ++ stringifyProps ps))
/-- The remaining elements of an array, each after a comma, then the closing bracket. -/
def stringifyItems : List JSValue → List Char
  | [] => [']']
  | x :: xs => ',' :: (stringifyValue x ++ stringifyItems xs)
/-- The remaining members of an object, each after a comma, then the closing brace. -/
def stringifyProps : List (String × JSValue) → List Char
  | [] => ['\x7d']
  | (k, v) :: ps => ',' :: (quoteJSONString k ++ ':' :: (stringifyValue v ++ stringifyProps ps))
end

/-- `JSON.stringify(v)` for a JSON-representable value. -/
def JSON.stringify (v : JSValue) : String := String.mk (stringifyValue v)

/-- JSON whitespace: space, tab, line feed, carriage return. -/
def isJsonWs (c : Char) : Bool :=
  c.toNat = 32 || c.toNat = 9 || c.toNat = 10 || c.toNat = 13

/-- Drop leading JSON whitespace. -/
def skipWs : List Char → List Char
  | [] => []
  | c :: cs => if isJsonWs c then skipWs cs else c :: cs

/-- Four hexadecimal digits to the code they denote. -/
def hex4 (a b c d : Char) : Option Nat :=
  match hexVal a, hexVal b, hexVal c, hexVal d with
  | some x, some y, some z, some w => some (((x * 16 + y) * 16 + z) * 16 + w)
  | _, _, _, _ => none

/-- Outcome of reading one item of a string body. -/
inductive StrStep where
  | done (rest : List Char)
  | char (c : Char) (rest : List Char)
  | fail (e : JSError)

/-- The character denoted by a two-character escape `\\e`. -/
def decodeEscape (e : Char) : Option Char :=
  if e = '"' then some '"'
  else if e = '\\' then some '\\'
  else if e = '/' then some '/'
  else if e = 'b' then some (Char.ofNat 8)
  else if e = 'f' then some (Char.ofNat 12)
  else if e = 'n' then some (Char.ofNat 10)
  else if e = 'r' then some (Char.ofNat 13)
  else if e = 't' then some (Char.ofNat 9)
  else none

/-- The second half `\\uXXXX` of an escaped surrogate pair whose first half is `n`. A first
half that is not followed by a low surrogate escape is a lone surrogate, which the embedding
does not represent. -/
def lowSurrogate (n : Nat) (cs : List Char) : StrStep :=
  match cs with
  | b :: u :: l1 :: l2 :: l3 :: l4 :: rest =>
    if b = '\\' ∧ u = 'u' then
      match hex4 l1 l2 l3 l4 with
      | none => .fail syntaxError
      | some m =>
        if 56320 ≤ m ∧ m ≤ 57343 then
          .char (Char.ofNat (65536 + (n - 55296) * 1024 + (m - 56320))) rest
        else .fail outsideModel
    else .fail outsideModel
  | _ => .fail outsideModel

/-- The escape `\\uXXXX`, read after `\\u`. -/
def unicodeEscape (cs : List Char) : StrStep :=
  match cs with
  | h1 :: h2 :: h3 :: h4 :: rest =>
    (match hex4 h1 h2 h3 h4 with
     | none => .fail syntaxError
     | some n =>
       if 55296 ≤ n ∧ n ≤ 56319 then lowSurrogate n rest
       else if 56320 ≤ n ∧ n ≤ 57343 then .fail outsideModel
       else .char (Char.ofNat n) rest)
  | _ => .fail syntaxError

/-- Read one item of a string body: the closing quote, an escape, or a plain character. A raw
control character, an unknown escape or the end of the text is a syntax error. -/
def stringStep : List Char → StrStep
  | [] => .fail syntaxError
  | c :: rest =>
    if c = '"' then .done rest
    else if c = '\\' then
      match rest with
      | [] => .fail syntaxError
      | e :: rest1 =>
        if e = 'u' then unicodeEscape rest1
        else
          match decodeEscape e with
          | none => .fail syntaxError
          | some d => .char d rest1
    else if c.toNat < 32 then .fail syntaxError
    else .char c rest

/-- The characters of a JSON string after its opening quote, up to the closing quote, and the
text after it. `fuel` bounds the number of items read. -/
def parseStringBody : Nat → List Char → Except JSError (List Char × List Char)
  | 0, _ => .error outsideModel
  | fuel + 1, cs =>
    match stringStep cs with
    | .fail e => .error e
    | .done rest => .ok ([], rest)
    | .char c rest =>
      match parseStringBody fuel rest with
      | .error e => .error e
      | .ok (s, r) => .ok (c :: s, r)

/-- A JSON string after its opening quote; every item takes at least one character, so the
length of the text is enough fuel. -/
def parseString (cs : List Char) : Except JSError (List Char × List Char) :=
  parseStringBody (cs.length + 1) cs

/-- A JSON number token. An integer literal is the integer it denotes (`-0` is `0`); a
literal with a fraction or an exponent is a number the embedding does not represent. A
missing digit or a leading zero is a syntax error. -/
def parseNumber (cs : List Char) : Except JSError (JSValue × List Char) :=
  let signed : Bool × List Char :=
    match cs with
    | c :: r => if c = '-' then (true, r) else (false, cs)
    | [] => (false, [])
  match signed.2.span Char.isDigit with
  | ([], _) => .error syntaxError
  | (d :: ds, rest) =>
    if d = '0' ∧ !ds.isEmpty then .error syntaxError
    else
      let fracOk : Option (Bool × List Char) :=
        match rest with
        | [] => some (false, [])
        | p :: r =>
          if p = '.' then
            (match r.span Char.isDigit with
             | ([], _) => none
             | (_ :: _, r2) => some (true, r2))
          else some (false, rest)
      match fracOk with
      | none => .error syntaxError
      | some (hasFrac, rest1) =>
        let expOk : Option (Bool × List Char) :=
          match rest1 with
          | [] => some (false, [])
          | e :: r =>
            if e = 'e' ∨ e = 'E' then
              let r1 := match r with
                | s :: r0 => if s = '+' ∨ s = '-' then r0 else r
                | [] => []
              (match r1.span Char.isDigit with
               | ([], _) => none
               | (_ :: _, r2) => some (true, r2))
            else some (false, rest1)
        match expOk with
        | none => .error syntaxError
        | some (hasExp, rest2) =>
          if hasFrac ∨ hasExp then .error outsideModel
          else
            let n : Int := digitsToNat (d :: ds)
            .ok (num (if signed.1 then -n else n), rest2)

/-- Expect the literal `lit` at the front of `cs`. -/
def expectLit (lit : List Char) (v : JSValue) (cs : List Char) :
    Except JSError (JSValue × List Char) :=
  if lit.isPrefixOf cs then .ok (v, cs.drop lit.length) else .error syntaxError

/-- The array index denoted by a property key: the canonical decimal text of an integer
below `2^32 - 1`. -/
def arrayIndexOf (k : String) : Option Nat :=
  match k.data with
  | [] => none
  | d :: ds =>
    if (d :: ds).all Char.isDigit ∧ (d ≠ '0' ∨ ds.isEmpty) ∧ digitsToNat (d :: ds) < 4294967295
    then some (digitsToNat (d :: ds)) else none

/-- Place a new array-index key among the array-index keys, in ascending numeric order,
in front of the other keys. -/
def insertIndexed (i : Nat) (k : String) (v : JSValue) :
    List (String × JSValue) → List (String × JSValue)
  | [] => [(k, v)]
  | p :: ps =>
    match arrayIndexOf p.1 with
    | some j => if j < i then p :: insertIndexed i k v ps else (k, v) :: p :: ps
    | none => (k, v) :: p :: ps

/-- CreateDataProperty on the own-property list kept in enumeration order: an existing key
keeps its place and takes the new value; a new array-index key goes among the index keys; any
other new key goes last. -/
def setProp (k : String) (v : JSValue) (props : List (String × JSValue)) :
    List (String × JSValue) :=
  if props.any (fun p => p.1 == k) then
    props.map (fun p => if p.1 == k then (k, v) else p)
  else
    match arrayIndexOf k with
    | some i => insertIndexed i k v props
    | none => props ++ [(k, v)]

/-- The property list of the object that `JSON.parse` builds from the members in text order. -/
def buildProps (members : List (String × JSValue)) : List (String × JSValue) :=
  members.foldl (fun acc p => setProp p.1 p.2 acc) []

mutual
/-- A JSON value at the front of `cs` (leading whitespace allowed) and the text after it.
`fuel` bounds the nesting of calls; `JSON.parse` passes enough of it. -/
def parseValue : Nat → List Char → Except JSError (JSValue × List Char)
  | 0, _ => .error outsideModel
  | fuel + 1, cs =>
    match skipWs cs with
    | [] => .error syntaxError
    | c :: rest =>
      if c = '"' then
        match parseString rest with
        | .error e => .error e
        | .ok (s, r) => .ok (str (String.mk s), r)
      else if c = '[' then
        match skipWs rest with
        | [] => .error syntaxError
        | c1 :: rest1 =>
          if c1 = ']' then .ok (arr [], rest1)
          else
            match parseElems fuel (c1 :: rest1) with
            | .error e => .error e
            | .ok (xs, r) => .ok (arr xs, r)
      else if c = '\x7b' then
        match skipWs rest with
        | [] => .error syntaxError
        | c1 :: rest1 =>
          if c1 = '\x7d' then .ok (obj [], rest1)
          else
            match parseMembers fuel (c1 :: rest1) with
            | .error e => .error e
            | .ok (ps, r) => .ok (obj (buildProps ps), r)
      else if c = 'n' then expectLit ['n', 'u', 'l', 'l'] null (c :: rest)
      else if c = 't' then expectLit ['t', 'r', 'u', 'e'] (.bool true) (c :: rest)
      else if c = 'f' then expectLit ['f', 'a', 'l', 's', 'e'] (.bool false) (c :: rest)
      else if c = '-' ∨ c.isDigit then parseNumber (c :: rest)
      else .error syntaxError
/-- One or more array elements separated by commas, up to and including the closing bracket. -/
def parseElems : Nat → List Char → Except JSError (List JSValue × List Char)
  | 0, _ => .error outsideModel
  | fuel + 1, cs =>
    match parseValue fuel cs with
    | .error e => .error e
    | .ok (v, r) =>
      match skipWs r with
      | [] => .error syntaxError
      | c :: r1 =>
        if c = ',' then
          match parseElems fuel r1 with
          | .error e => .error e
          | .ok (vs, r2) => .ok (v :: vs, r2)
        else if c = ']' then .ok ([v], r1)
        else .error syntaxError
/-- One or more object members separated by commas, up to and including the closing brace. -/
def parseMembers : Nat → List Char → Except JSError (List (String × JSValue) × List Char)
  | 0, _ => .error outsideModel
  | fuel + 1, cs =>
    match skipWs cs with
    | [] => .error syntaxError
    | q :: r0 =>
      if q = '"' then
        match parseString r0 with
        | .error e => .error e
        | .ok (k, r1) =>
          match skipWs r1 with
          | [] => .error syntaxError
          | colon :: r2 =>
            if colon = ':' then
              match parseValue fuel r2 with
              | .error e => .error e
              | .ok (v, r3) =>
                match skipWs r3 with
                | [] => .error syntaxError
                | c :: r4 =>
                  if c = ',' then
                    match parseMembers fuel r4 with
                    | .error e => .error e
                    | .ok (ps, r5) => .ok ((String.mk k, v) :: ps, r5)
                  else if c = '\x7d' then .ok ([(String.mk k, v)], r4)
                  else .error syntaxError
            else .error syntaxError
      else .error syntaxError
end

/-- `JSON.parse(text)` without a reviver: one value between optional whitespace, a
`SyntaxError` on anything else. -/
def JSON.parse (text : String) : Except JSError JSValue :=
  match parseValue (2 * text.data.length + 2) text.data with
  | .error e => .error e
  | .ok (v, r) => if (skipWs r).isEmpty then .ok v else .error syntaxError

/-! ## Durable store: load at startup, persist after a change -/

/-- The contents of `localStorage`: the text stored under a key, if any. Writes always
succeed (no quota is modelled). -/
abbrev Storage := String → Option String

/-- `localStorage.setItem(key, text)`. -/
def setItem (store : Storage) (key text : String) : Storage :=
  fun k => if k = key then some text else store k

/-- The seeded default courses (App.js lines 10-13). -/
def defaultCourses : List JSValue :=
  [obj [("id", num 1), ("name", str "Mathematics"), ("fee", num 500)],
   obj [("id", num 2), ("name", str "Science"), ("fee", num 450)]]

/-- The expression `JSON.parse(localStorage.getItem(key)) || dflt`. `getItem` yields `null`
for an absent key, which `JSON.parse` converts to the text `null`. -/
def loadOr (store : Storage) (key : String) (dflt : JSValue) : Except JSError JSValue :=
  let text : String :=
    match store key with
    | some t => t
    | none => "null"
  match JSON.parse text with
  | .error e => .error e
  | .ok v => .ok (if truthy v then v else dflt)

/-- The three collections as the component holds them. -/
structure AppState where
  students : JSValue
  courses : JSValue
  fees : JSValue

/-- The initial values of the three `useState` calls (App.js lines 9-14), in order. -/
def initialState (store : Storage) : Except JSError AppState :=
  match loadOr store "students" (arr []) with
  | .error e => .error e
  | .ok students =>
    match loadOr store "courses" (arr defaultCourses) with
    | .error e => .error e
    | .ok courses =>
      match loadOr store "fees" (arr []) with
      | .error e => .error e
      | .ok fees => .ok ⟨students, courses, fees⟩

/-- The persistence effect (App.js lines 21-25): the three blobs are rewritten in full. -/
def persist (st : AppState) (store : Storage) : Storage :=
  setItem
    (setItem (setItem store "students" (JSON.stringify st.students))
      "courses" (JSON.stringify st.courses))
    "fees" (JSON.stringify st.fees)

/-- Repository states reachable from the first-run state (nothing persisted) through the
two handlers; the courses never change. -/
inductive Reachable : List JSValue → List JSValue → List JSValue → Prop where
  | firstRun : Reachable [] defaultCourses []
  | addStudent {students courses fees : List JSValue} (now : Int) (today : String)
      (formData : FormData) :
      Reachable students courses fees →
      Reachable (TutorialManager.addStudent now today formData students) courses fees
  | addFee {students courses fees : List JSValue} (now : Int) (today : String)
      (formData : FormData) :
      Reachable students courses fees →
      Reachable students courses (TutorialManager.addFee now today formData fees)

/-! ## Notions used in the statements -/

/-- The `id` of a record. -/
def idOf (s : JSValue) : Option JSValue :=
  match s with
  | obj props => props.lookup "id"
  | _ => none

/-- Value of a run of decimal digits, most significant first, as positional notation
defines it. -/
def decimalValue (ds : List Char) : Nat :=
  Nat.ofDigits 10 (ds.reverse.map (fun c => c.toNat - 48))

/-- An optional sign: nothing, `+` or `-`. -/
def IsSign (sign : List Char) : Prop := sign = [] ∨ sign = ['+'] ∨ sign = ['-']

/-- The magnitude `m` under an optional sign. -/
def applySign (sign : List Char) (m : Int) : Int := if sign = ['-'] then -m else m

/-- The exponent part of a numeric text and the exponent it writes: nothing (exponent `0`), or
`e` / `E`, an optional sign and at least one digit. -/
def ExponentText (text : List Char) (e : Int) : Prop :=
  (text = [] ∧ e = 0) ∨
  ∃ mark sign ds, text = mark :: (sign ++ ds) ∧ (mark = 'e' ∨ mark = 'E') ∧ IsSign sign ∧
    ds ≠ [] ∧ (∀ c ∈ ds, c.isDigit = true) ∧ e = applySign sign (decimalValue ds)

/-- The text `t` is a numeric text that denotes the integer `n`: optional white space, an
optional sign, decimal digits with an optional fraction (a point and digits) and an optional
exponent part, optional white space, where the written value
`sign * digits * 10 ^ (exponent - number of fraction digits)` is `n`. -/
def NumericText (t : String) (n : Int) : Prop :=
  ∃ (ws1 ws2 sign ip fracText fp expText : List Char) (e : Int),
    t.data = ws1 ++ (sign ++ (ip ++ (fracText ++ expText))) ++ ws2 ∧
    (∀ c ∈ ws1, isStrWhiteSpace c = true) ∧ (∀ c ∈ ws2, isStrWhiteSpace c = true) ∧
    IsSign sign ∧ (∀ c ∈ ip, c.isDigit = true) ∧ (∀ c ∈ fp, c.isDigit = true) ∧
    ((fracText = [] ∧ fp = []) ∨ fracText = '.' :: fp) ∧ (ip ≠ [] ∨ fp ≠ []) ∧
    ExponentText expText e ∧
    applySign sign (decimalValue (ip ++ fp)) * 10 ^ (e - (fp.length : Int)).toNat =
      n * 10 ^ ((fp.length : Int) - e).toNat

/-- The fee record `f` has the integer amount `n`: its `amount` is the number `n`, or a numeric
text that denotes `n`. -/
def FeeAmount (f : JSValue) (n : Int) : Prop :=
  ∃ props, f = obj props ∧
    (props.lookup "amount" = some (num n) ∨
      ∃ t, props.lookup "amount" = some (str t) ∧ NumericText t n)

/-- Lower-casing of the ASCII letters, other characters unchanged. -/
def asciiLower (s : String) : String := String.mk (s.data.map Char.toLower)

/-- The ids of the records that a run of `addStudent` calls added, in creation order. -/
def addedIds (calls : List (Int × String × FormData)) (students : List JSValue) :
    List (Option JSValue) :=
  ((addStudents calls students).drop students.length).map idOf

/-! ## Sample data of the examples -/

/-- Two Cash fees, for the students `1` and `2` of the filter example. -/
def sampleFees : List JSValue :=
  [obj [("studentId", num 1), ("method", str "Cash")],
   obj [("studentId", num 2), ("method", str "Cash")]]

/-- A submitted student form. -/
def sampleStudentForm : FormData :=
  [("name", "Ana"), ("phone", "555-0100"), ("courseId", "1")]

/-- A submitted fee form with a selected student. -/
def sampleFeeForm : FormData :=
  [("studentId", "1700000000000"), ("month", "2023-10"), ("amount", "500"), ("method", "Cash")]

/-- The fee form as submitted while no student exists: the student `select` has no option and
contributes no entry. -/
def orphanFeeForm : FormData :=
  [("month", "2023-10"), ("amount", "500"), ("method", "Cash")]

/-- Two `addStudent` calls that read the same value from the clock. -/
def sameClockCalls : List (Int × String × FormData) :=
  [(1700000000000, "11/14/2023", [("name", "Ana"), ("phone", "555-0100"), ("courseId", "1")]),
   (1700000000000, "11/14/2023", [("name", "Ben"), ("phone", "555-0101"), ("courseId", "2")])]

/-- The store of a first run: nothing persisted. -/
def emptyStore : Storage := fun _ => none

/-- A store whose `students` blob was cut short in the middle of a record. -/
def truncatedStore : Storage :=
  setItem emptyStore "students" "[\x7b\"id\":1700000000000,\"name\":\"An"

/-- The fee collection after a payment was recorded on a first run, with no student to
select. -/
def orphanFees : List JSValue := addFee 1700000000000 "11/14/2023" orphanFeeForm []

/-- The student collection after a first student was added one minute later. -/
def laterStudents : List JSValue := addStudent 1700000060000 "11/14/2023" sampleStudentForm []

/-- The fee form submitted for the student added at `1700000060000`. -/
def anaFeeForm : FormData :=
  [("studentId", "1700000060000"), ("month", "2023-11"), ("amount", "450"), ("method", "Cash")]

/-- The fee collection after a second payment was recorded, for the student of
`laterStudents`. -/
def mixedFees : List JSValue := addFee 1700000120000 "11/14/2023" anaFeeForm orphanFees

/-- Two fees with the amounts `0.1` and `0.2`, as a store can hold them. -/
def fractionFees : List JSValue :=
  [obj [("id", num 1700000090000), ("studentId", str "1700000060000"), ("amount", str "0.1"),
        ("month", str "2023-10"), ("method", str "Cash"), ("date", str "11/14/2023")],
   obj [("id", num 1700000120000), ("studentId", str "1700000060000"), ("amount", str "0.2"),
        ("month", str "2023-11"), ("method", str "Cash"), ("date", str "11/14/2023")]]

/-- Two fees whose amounts are the largest safe integer and `2`, stored as the texts that the
fee form submits. -/
def largeFees : List JSValue :=
  addFee 1700000120000 "11/14/2023"
    [("studentId", "1700000060000"), ("month", "2023-11"), ("amount", "2"), ("method", "Cash")]
    (addFee 1700000090000 "11/14/2023"
      [("studentId", "1700000060000"), ("month", "2023-10"), ("amount", "9007199254740991"),
        ("method", "Cash")] [])

mutual
/-- Every object inside the value has pairwise distinct keys, none of them an array index, so
that the order of its property list is the insertion order. -/
def PlainKeys : JSValue → Prop
  | null => True
  | .bool _ => True
  | num _ => True
  | str _ => True
  | arr xs => PlainKeysItems xs
  | obj ps => (ps.map Prod.fst).Nodup ∧ (∀ k ∈ ps.map Prod.fst, arrayIndexOf k = none) ∧
      PlainKeysProps ps
/-- `PlainKeys` on every element. -/
def PlainKeysItems : List JSValue → Prop
  | [] => True
  | x :: xs => PlainKeys x ∧ PlainKeysItems xs
/-- `PlainKeys` on every property value. -/
def PlainKeysProps : List (String × JSValue) → Prop
  | [] => True
  | (_, v) :: ps => PlainKeys v ∧ PlainKeysProps ps
end

/-- The elements of a non-empty array as serialised after the opening bracket. -/
def itemsText : List JSValue → List Char
  | [] => []
  | x :: xs => stringifyValue x ++ stringifyItems xs

/-- The members of a non-empty object as serialised after the opening brace. -/
def propsText : List (String × JSValue) → List Char
  | [] => []
  | (k, v) :: ps => quoteJSONString k ++ ':' :: (stringifyValue v ++ stringifyProps ps)

/-- The text after a serialised value inside an array or object: nothing, or text that starts
with a comma or a closing bracket or brace. -/
def Delim (rest : List Char) : Prop :=
  ∀ c ∈ rest.head?, c = ',' ∨ c = ']' ∨ c = '\x7d'

/-! ## Decimal digits -/

theorem digitChar_toNat (d : Nat) (h : d < 10) : (digitChar d).toNat = 48 + d := by
  interval_cases d <;> rfl

theorem digitChar_isDigit (d : Nat) (h : d < 10) : (digitChar d).isDigit = true := by
  interval_cases d <;> rfl

theorem natDigits_all_digit (fuel n : Nat) : ∀ c ∈ natDigits fuel n, c.isDigit = true := by
  induction fuel generalizing n with
  | zero => intro c hc; simp [natDigits] at hc
  | succ fuel ih =>
    intro c hc
    unfold natDigits at hc
    split at hc
    · rename_i hlt
      simp only [List.mem_singleton] at hc
      subst hc
      exact digitChar_isDigit n hlt
    · simp only [List.mem_append, List.mem_singleton] at hc
      rcases hc with hc | hc
      · exact ih _ c hc
      · subst hc
        exact digitChar_isDigit _ (Nat.mod_lt _ (by norm_num))

theorem digitsToNat_append_singleton (ds : List Char) (c : Char) :
    digitsToNat (ds ++ [c]) = digitsToNat ds * 10 + (c.toNat - 48) := by
  simp [digitsToNat, List.foldl_append]

theorem digitsToNat_natDigits (fuel n : Nat) (h : n < fuel) :
    digitsToNat (natDigits fuel n) = n := by
  induction fuel generalizing n with
  | zero => omega
  | succ fuel ih =>
    unfold natDigits
    split
    · rename_i hlt
      simp [digitsToNat, digitChar_toNat n hlt]
    · rename_i hge
      rw [digitsToNat_append_singleton, ih (n / 10) (by omega),
        digitChar_toNat _ (Nat.mod_lt _ (by norm_num))]
      omega

/-- The first digit is `0` only for the number zero, which is the single digit `0`. -/
theorem natDigits_head (fuel n : Nat) (h : n < fuel) :
    ∃ d ds, natDigits fuel n = digitChar d :: ds ∧ d < 10 ∧ (d = 0 → ds = []) := by
  induction fuel generalizing n with
  | zero => omega
  | succ fuel ih =>
    unfold natDigits
    split
    · rename_i hlt
      exact ⟨n, [], rfl, hlt, fun _ => rfl⟩
    · rename_i hge
      obtain ⟨d, ds, hd, hlt, hz⟩ := ih (n / 10) (by omega)
      refine ⟨d, ds ++ [digitChar (n % 10)], by rw [hd]; rfl, hlt, ?_⟩
      intro hd0
      exfalso
      have hval := digitsToNat_natDigits fuel (n / 10) (by omega)
      rw [hd, hd0, hz hd0] at hval
      simp [digitsToNat, digitChar] at hval
      omega

theorem span_digits_append (ds rest : List Char) (hds : ∀ c ∈ ds, c.isDigit = true)
    (hrest : ∀ c ∈ rest.head?, c.isDigit = false) :
    (ds ++ rest).span Char.isDigit = (ds, rest) := by
  induction ds with
  | nil =>
    cases rest with
    | nil => rfl
    | cons c t =>
      have := hrest c (by simp)
      simp [List.span_eq_take_drop, List.takeWhile, List.dropWhile, this]
  | cons d ds ih =>
    have hd := hds d (by simp)
    have := ih (fun c hc => hds c (by simp [hc]))
    simp only [List.span_eq_take_drop, Prod.mk.injEq] at this ⊢
    rw [List.cons_append, List.takeWhile_cons, List.dropWhile_cons]
    simp only [hd, if_true]
    exact ⟨by rw [this.1], this.2⟩

theorem natToChars_shape (m : Nat) :
    ∃ d ds, natToChars m = digitChar d :: ds ∧ d < 10 ∧ (d = 0 → ds = []) ∧
      (∀ c ∈ digitChar d :: ds, c.isDigit = true) ∧ digitsToNat (digitChar d :: ds) = m := by
  obtain ⟨d, ds, h, hlt, hz⟩ := natDigits_head (m + 1) m (by omega)
  refine ⟨d, ds, h, hlt, hz, ?_, ?_⟩
  · rw [← h]; exact natDigits_all_digit _ _
  · rw [← h]; exact digitsToNat_natDigits _ _ (by omega)

theorem delim_not_digit (rest : List Char) (h : Delim rest) :
    ∀ c ∈ rest.head?, c.isDigit = false := by
  intro c hc
  rcases h c hc with h | h | h <;> subst h <;> rfl

theorem parseNumber_digits (neg : Bool) (d : Nat) (ds rest : List Char) (hd : d < 10)
    (hz : d = 0 → ds = []) (hall : ∀ c ∈ digitChar d :: ds, c.isDigit = true)
    (hrest : Delim rest) :
    parseNumber ((if neg then ['-'] else []) ++ digitChar d :: (ds ++ rest)) =
      .ok (num (if neg then -(digitsToNat (digitChar d :: ds) : Int)
        else (digitsToNat (digitChar d :: ds) : Int)), rest) := by
  have hspan : (digitChar d :: (ds ++ rest)).span Char.isDigit = (digitChar d :: ds, rest) :=
    span_digits_append (digitChar d :: ds) rest hall (delim_not_digit rest hrest)
  have hne : digitChar d ≠ '-' := by
    intro h
    have := hall (digitChar d) (by simp)
    rw [h] at this
    exact absurd this (by decide)
  have hlead : ¬ (digitChar d = '0' ∧ (!ds.isEmpty) = true) := by
    rintro ⟨h0, hne⟩
    have h1 : (digitChar d).toNat = 48 := by rw [h0]; rfl
    rw [digitChar_toNat d hd] at h1
    have : ds = [] := hz (by omega)
    subst this
    simp at hne
  unfold parseNumber
  cases neg
  · simp only [Bool.false_eq_true, if_false, List.nil_append, hne, hspan, hlead]
    cases rest with
    | nil => simp
    | cons c t =>
      have hc := hrest c (by simp)
      have h1 : c ≠ '.' := by rcases hc with h | h | h <;> subst h <;> decide
      have h2 : ¬ (c = 'e' ∨ c = 'E') := by rcases hc with h | h | h <;> subst h <;> decide
      simp [h1, h2]
  · simp only [if_true, List.singleton_append, hspan, hlead]
    cases rest with
    | nil => simp
    | cons c t =>
      have hc := hrest c (by simp)
      have h1 : c ≠ '.' := by rcases hc with h | h | h <;> subst h <;> decide
      have h2 : ¬ (c = 'e' ∨ c = 'E') := by rcases hc with h | h | h <;> subst h <;> decide
      simp [h1, h2]

theorem parseNumber_intToChars (n : Int) (rest : List Char) (hrest : Delim rest) :
    parseNumber (intToChars n ++ rest) = .ok (num n, rest) := by
  cases n with
  | ofNat m =>
    obtain ⟨d, ds, h, hlt, hz, hall, hval⟩ := natToChars_shape m
    have := parseNumber_digits false d ds rest hlt hz hall hrest
    simp only [Bool.false_eq_true, if_false, List.nil_append, hval] at this
    simpa [intToChars, h] using this
  | negSucc m =>
    obtain ⟨d, ds, h, hlt, hz, hall, hval⟩ := natToChars_shape (m + 1)
    have := parseNumber_digits true d ds rest hlt hz hall hrest
    simp only [if_true, List.singleton_append, hval] at this
    have e : (-((m + 1 : Nat) : Int)) = Int.negSucc m := by
      simp [Int.negSucc_eq]
    rw [e] at this
    simpa [intToChars, h] using this

/-! ## Quoted strings -/

theorem char_eq_of_toNat (c : Char) (n : Nat) (h : c.toNat = n) : Char.ofNat n = c := by
  rw [← h]; exact Char.ofNat_toNat c

theorem hex4_control (n : Nat) (h : n < 32) :
    hex4 '0' '0' (hexDigitChar (n / 16)) (hexDigitChar (n % 16)) = some n := by
  interval_cases n <;> rfl

theorem stringStep_quoteChar (c : Char) (tail : List Char) :
    stringStep (quoteChar c ++ tail) = .char c tail := by
  unfold quoteChar
  split
  · rename_i h; subst h; rfl
  split
  · rename_i h; subst h; rfl
  split
  · rename_i h
    rw [← char_eq_of_toNat c 8 h]; rfl
  split
  · rename_i h
    rw [← char_eq_of_toNat c 9 h]; rfl
  split
  · rename_i h
    rw [← char_eq_of_toNat c 10 h]; rfl
  split
  · rename_i h
    rw [← char_eq_of_toNat c 12 h]; rfl
  split
  · rename_i h
    rw [← char_eq_of_toNat c 13 h]; rfl
  split
  · rename_i h
    have hx := hex4_control c.toNat h
    have h1 : ¬ (55296 ≤ c.toNat ∧ c.toNat ≤ 56319) := by omega
    have h2 : ¬ (56320 ≤ c.toNat ∧ c.toNat ≤ 57343) := by omega
    simp [stringStep, unicodeEscape, hx, h1, h2, Char.ofNat_toNat]
  · rename_i h1 h2 _ _ _ _ _ h3
    simp [stringStep, h1, h2, h3]

theorem quoteBody_length (s : List Char) : s.length + 1 ≤ (quoteBody s).length := by
  induction s with
  | nil => simp [quoteBody]
  | cons c cs ih =>
    have : 1 ≤ (quoteChar c).length := by
      unfold quoteChar
      repeat' split
      all_goals simp
    simp only [quoteBody, List.length_append, List.length_cons]
    omega

theorem parseStringBody_quoteBody (s rest : List Char) (fuel : Nat) (h : s.length + 1 ≤ fuel) :
    parseStringBody fuel (quoteBody s ++ rest) = .ok (s, rest) := by
  induction s generalizing fuel with
  | nil =>
    cases fuel with
    | zero => simp at h
    | succ fuel => simp [quoteBody, parseStringBody, stringStep]
  | cons c cs ih =>
    cases fuel with
    | zero => simp at h
    | succ fuel =>
      rw [quoteBody, List.append_assoc, parseStringBody, stringStep_quoteChar]
      simp only [ih fuel (by simpa using h)]

theorem parseString_quoteBody (s rest : List Char) :
    parseString (quoteBody s ++ rest) = .ok (s, rest) := by
  unfold parseString
  apply parseStringBody_quoteBody
  have := quoteBody_length s
  simp only [List.length_append]
  omega

/-! ## Objects built from distinct plain keys -/

theorem setProp_fresh (k : String) (v : JSValue) (props : List (String × JSValue))
    (hk : k ∉ props.map Prod.fst) (hi : arrayIndexOf k = none) :
    setProp k v props = props ++ [(k, v)] := by
  unfold setProp
  have : props.any (fun p => p.1 == k) = false := by
    rw [Bool.eq_false_iff]
    intro h
    rw [List.any_eq_true] at h
    obtain ⟨p, hp, hpk⟩ := h
    apply hk
    have : p.1 = k := by simpa using hpk
    rw [← this]
    exact List.mem_map_of_mem _ hp
  simp [this, hi]

theorem foldl_setProp_plain (ps acc : List (String × JSValue))
    (hnd : ((acc ++ ps).map Prod.fst).Nodup)
    (hi : ∀ k ∈ ps.map Prod.fst, arrayIndexOf k = none) :
    ps.foldl (fun a p => setProp p.1 p.2 a) acc = acc ++ ps := by
  induction ps generalizing acc with
  | nil => simp
  | cons p ps ih =>
    have hfresh : p.1 ∉ acc.map Prod.fst := by
      intro hmem
      rw [List.map_append, List.nodup_append] at hnd
      exact hnd.2.2 hmem (by simp)
    rw [List.foldl_cons, setProp_fresh p.1 p.2 acc hfresh (hi p.1 (by simp))]
    rw [ih (acc ++ [(p.1, p.2)]) (by simpa using hnd) (fun k hk => hi k (by simp at hk ⊢; right; exact hk))]
    simp

theorem buildProps_plain (ps : List (String × JSValue)) (hnd : (ps.map Prod.fst).Nodup)
    (hi : ∀ k ∈ ps.map Prod.fst, arrayIndexOf k = none) : buildProps ps = ps := by
  unfold buildProps
  rw [foldl_setProp_plain ps [] (by simpa using hnd) hi]
  simp

/-! ## `JSON.parse` after `JSON.stringify` -/

theorem intToChars_head (n : Int) :
    ∃ c t, intToChars n = c :: t ∧ (c = '-' ∨ c.isDigit = true) := by
  cases n with
  | ofNat m =>
    obtain ⟨d, ds, h, _, _, hall, _⟩ := natToChars_shape m
    exact ⟨digitChar d, ds, by simpa [intToChars] using h, Or.inr (hall _ (by simp))⟩
  | negSucc m => exact ⟨'-', natToChars (m + 1), rfl, Or.inl rfl⟩

theorem stringifyItems_head (xs : List JSValue) :
    ∃ c t, stringifyItems xs = c :: t ∧ (c = ',' ∨ c = ']') := by
  cases xs with
  | nil => exact ⟨']', [], by simp [stringifyItems], Or.inr rfl⟩
  | cons x xs => exact ⟨',', _, by rw [stringifyItems], Or.inl rfl⟩

theorem stringifyProps_head (ps : List (String × JSValue)) :
    ∃ c t, stringifyProps ps = c :: t ∧ (c = ',' ∨ c = '\x7d') := by
  cases ps with
  | nil => exact ⟨'\x7d', [], by simp [stringifyProps], Or.inr rfl⟩
  | cons p ps =>
    obtain ⟨k, v⟩ := p
    exact ⟨',', _, by rw [stringifyProps], Or.inl rfl⟩

theorem delim_items (xs : List JSValue) (rest : List Char) :
    Delim (stringifyItems xs ++ rest) := by
  obtain ⟨c, t, h, hc⟩ := stringifyItems_head xs
  intro c' hc'
  rw [h] at hc'
  simp at hc'
  subst hc'
  rcases hc with h | h <;> simp [h]

theorem delim_props (ps : List (String × JSValue)) (rest : List Char) :
    Delim (stringifyProps ps ++ rest) := by
  obtain ⟨c, t, h, hc⟩ := stringifyProps_head ps
  intro c' hc'
  rw [h] at hc'
  simp at hc'
  subst hc'
  rcases hc with h | h <;> simp [h]

/-- The first character of a serialised value is not whitespace and closes nothing. -/
theorem stringifyValue_head (v : JSValue) :
    ∃ c t, stringifyValue v = c :: t ∧ isJsonWs c = false ∧ c ≠ ']' ∧ c ≠ '\x7d' := by
  cases v with
  | null => exact ⟨'n', _, by rw [stringifyValue], by decide, by decide, by decide⟩
  | bool b =>
    cases b
    · exact ⟨'f', ['a', 'l', 's', 'e'], by simp [stringifyValue], by decide, by decide,
        by decide⟩
    · exact ⟨'t', ['r', 'u', 'e'], by simp [stringifyValue], by decide, by decide, by decide⟩
  | num n =>
    obtain ⟨c, t, h, hc⟩ := intToChars_head n
    refine ⟨c, t, by rw [stringifyValue, h], ?_⟩
    rcases hc with hc | hc
    · subst hc; exact ⟨by decide, by decide, by decide⟩
    · refine ⟨?_, ?_, ?_⟩
      · simp only [Char.isDigit, Bool.and_eq_true, decide_eq_true_eq] at hc
        have h1 : 48 ≤ c.toNat := hc.1
        simp only [isJsonWs, Bool.or_eq_false_iff, decide_eq_false_iff_not]
        omega
      · intro h; subst h; exact absurd hc (by decide)
      · intro h; subst h; exact absurd hc (by decide)
  | str s => exact ⟨'"', _, by rw [stringifyValue, quoteJSONString], by decide, by decide, by decide⟩
  | arr xs =>
    cases xs with
    | nil => exact ⟨'[', _, by rw [stringifyValue], by decide, by decide, by decide⟩
    | cons x xs => exact ⟨'[', _, by rw [stringifyValue], by decide, by decide, by decide⟩
  | obj ps =>
    cases ps with
    | nil => exact ⟨'\x7b', _, by rw [stringifyValue], by decide, by decide, by decide⟩
    | cons p ps =>
      obtain ⟨k, v⟩ := p
      exact ⟨'\x7b', _, by rw [stringifyValue], by decide, by decide, by decide⟩

theorem skipWs_cons_of_not_ws (c : Char) (t : List Char) (h : isJsonWs c = false) :
    skipWs (c :: t) = c :: t := by
  simp [skipWs, h]

theorem parseValue_null (fuel : Nat) (rest : List Char) :
    parseValue (fuel + 1) ('n' :: 'u' :: 'l' :: 'l' :: rest) = .ok (null, rest) := by
  rw [parseValue, skipWs_cons_of_not_ws _ _ (by decide)]
  simp [expectLit, List.isPrefixOf]

theorem parseValue_true (fuel : Nat) (rest : List Char) :
    parseValue (fuel + 1) ('t' :: 'r' :: 'u' :: 'e' :: rest) = .ok (.bool true, rest) := by
  rw [parseValue, skipWs_cons_of_not_ws _ _ (by decide)]
  simp [expectLit, List.isPrefixOf]

theorem parseValue_false (fuel : Nat) (rest : List Char) :
    parseValue (fuel + 1) ('f' :: 'a' :: 'l' :: 's' :: 'e' :: rest) = .ok (.bool false, rest) := by
  rw [parseValue, skipWs_cons_of_not_ws _ _ (by decide)]
  simp [expectLit, List.isPrefixOf]

theorem parseValue_num (fuel : Nat) (n : Int) (rest : List Char) (hrest : Delim rest) :
    parseValue (fuel + 1) (intToChars n ++ rest) = .ok (num n, rest) := by
  obtain ⟨c, t, h, hc⟩ := intToChars_head n
  have hnum := parseNumber_intToChars n rest hrest
  rw [h] at hnum ⊢
  have hws : isJsonWs c = false := by
    rcases hc with hc | hc
    · subst hc; decide
    · simp only [Char.isDigit, Bool.and_eq_true, decide_eq_true_eq] at hc
      have h1 : 48 ≤ c.toNat := hc.1
      simp only [isJsonWs, Bool.or_eq_false_iff, decide_eq_false_iff_not]
      omega
  have hne : ∀ x : Char, x.isDigit = false → x ≠ '-' → c ≠ x := by
    intro x hx hx' hcx
    subst hcx
    rcases hc with hc | hc
    · exact hx' hc
    · rw [hx] at hc; exact absurd hc (by decide)
  rw [List.cons_append, parseValue, skipWs_cons_of_not_ws _ _ hws]
  simp only [hne '"' (by decide) (by decide), hne '[' (by decide) (by decide),
    hne '\x7b' (by decide) (by decide), hne 'n' (by decide) (by decide),
    hne 't' (by decide) (by decide), hne 'f' (by decide) (by decide), if_false]
  rw [if_pos hc]
  exact hnum

theorem parseValue_str (fuel : Nat) (s : String) (rest : List Char) :
    parseValue (fuel + 1) (quoteJSONString s ++ rest) = .ok (str s, rest) := by
  rw [quoteJSONString, List.cons_append, parseValue, skipWs_cons_of_not_ws _ _ (by decide)]
  simp [parseString_quoteBody]

theorem parseValue_emptyArr (fuel : Nat) (rest : List Char) :
    parseValue (fuel + 1) ('[' :: ']' :: rest) = .ok (arr [], rest) := by
  rw [parseValue, skipWs_cons_of_not_ws _ _ (by decide)]
  simp [skipWs_cons_of_not_ws ']' rest (by decide)]

theorem parseValue_emptyObj (fuel : Nat) (rest : List Char) :
    parseValue (fuel + 1) ('\x7b' :: '\x7d' :: rest) = .ok (obj [], rest) := by
  rw [parseValue, skipWs_cons_of_not_ws _ _ (by decide)]
  simp [skipWs_cons_of_not_ws '\x7d' rest (by decide)]

theorem parseValue_arr_of_elems (fuel : Nat) (x : JSValue) (xs : List JSValue)
    (rest : List Char)
    (h : parseElems fuel (itemsText (x :: xs) ++ rest) = .ok (x :: xs, rest)) :
    parseValue (fuel + 1) (stringifyValue (arr (x :: xs)) ++ rest) = .ok (arr (x :: xs), rest) := by
  obtain ⟨c, t, hct, hws, hb, _⟩ := stringifyValue_head x
  rw [itemsText, hct] at h
  rw [stringifyValue, hct, List.cons_append, parseValue, skipWs_cons_of_not_ws _ _ (by decide)]
  simp only [show ('[' : Char) ≠ '"' by decide, if_false, if_true]
  simp only [List.cons_append, List.append_assoc] at h ⊢
  rw [skipWs_cons_of_not_ws _ _ hws]
  simp only [hb, if_false, h]

theorem parseValue_obj_of_members (fuel : Nat) (k : String) (v : JSValue)
    (ps : List (String × JSValue)) (rest : List Char)
    (hb : buildProps ((k, v) :: ps) = (k, v) :: ps)
    (h : parseMembers fuel (propsText ((k, v) :: ps) ++ rest) = .ok ((k, v) :: ps, rest)) :
    parseValue (fuel + 1) (stringifyValue (obj ((k, v) :: ps)) ++ rest) =
      .ok (obj ((k, v) :: ps), rest) := by
  rw [propsText, quoteJSONString] at h
  rw [stringifyValue, quoteJSONString, List.cons_append, parseValue,
    skipWs_cons_of_not_ws _ _ (by decide)]
  simp only [show ('\x7b' : Char) ≠ '"' by decide, show ('\x7b' : Char) ≠ '[' by decide,
    if_false, if_true]
  simp only [List.cons_append, List.append_assoc] at h ⊢
  rw [skipWs_cons_of_not_ws _ _ (by decide)]
  simp only [show ('"' : Char) ≠ '\x7d' by decide, if_false, h, hb]

theorem parseElems_step (fuel : Nat) (x : JSValue) (xs : List JSValue) (rest : List Char)
    (hv : parseValue fuel (stringifyValue x ++ (stringifyItems xs ++ rest)) =
      .ok (x, stringifyItems xs ++ rest))
    (hrest : xs ≠ [] → parseElems fuel (itemsText xs ++ rest) = .ok (xs, rest)) :
    parseElems (fuel + 1) (itemsText (x :: xs) ++ rest) = .ok (x :: xs, rest) := by
  rw [itemsText, List.append_assoc, parseElems, hv]
  cases xs with
  | nil =>
    simp only [stringifyItems, List.cons_append, List.nil_append]
    rw [skipWs_cons_of_not_ws _ _ (by decide)]
    simp
  | cons y ys =>
    have h := hrest (by simp)
    simp only [stringifyItems, List.cons_append, List.append_assoc]
    rw [skipWs_cons_of_not_ws _ _ (by decide)]
    simp only [itemsText, List.append_assoc] at h
    simp [h]

theorem parseMembers_step (fuel : Nat) (k : String) (v : JSValue)
    (ps : List (String × JSValue)) (rest : List Char)
    (hv : parseValue fuel (stringifyValue v ++ (stringifyProps ps ++ rest)) =
      .ok (v, stringifyProps ps ++ rest))
    (hrest : ps ≠ [] → parseMembers fuel (propsText ps ++ rest) = .ok (ps, rest)) :
    parseMembers (fuel + 1) (propsText ((k, v) :: ps) ++ rest) = .ok ((k, v) :: ps, rest) := by
  rw [propsText, quoteJSONString]
  simp only [List.cons_append, List.append_assoc]
  rw [parseMembers, skipWs_cons_of_not_ws _ _ (by decide)]
  simp only [if_true, parseString_quoteBody]
  rw [skipWs_cons_of_not_ws _ _ (by decide)]
  simp only [if_true, hv]
  cases ps with
  | nil =>
    simp only [stringifyProps, List.cons_append, List.nil_append]
    rw [skipWs_cons_of_not_ws _ _ (by decide)]
    simp
  | cons p ps =>
    obtain ⟨k2, v2⟩ := p
    have h := hrest (by simp)
    simp only [stringifyProps, List.cons_append, List.append_assoc]
    rw [skipWs_cons_of_not_ws _ _ (by decide)]
    simp only [propsText, List.append_assoc, List.cons_append] at h
    simp [h]

theorem stringifyItems_length (xs : List JSValue) :
    (stringifyItems xs).length = (itemsText xs).length + 1 := by
  cases xs with
  | nil => simp [stringifyItems, itemsText]
  | cons x xs => simp [stringifyItems, itemsText]

theorem stringifyProps_length (ps : List (String × JSValue)) :
    (stringifyProps ps).length = (propsText ps).length + 1 := by
  cases ps with
  | nil => simp [stringifyProps, propsText]
  | cons p ps =>
    obtain ⟨k, v⟩ := p
    simp [stringifyProps, propsText]

mutual
theorem parseValue_stringify : ∀ (v : JSValue) (fuel : Nat) (rest : List Char),
    PlainKeys v → 2 * (stringifyValue v).length ≤ fuel → Delim rest →
    parseValue fuel (stringifyValue v ++ rest) = .ok (v, rest)
  | null, fuel, rest, _, hf, _ => by
    cases fuel with
    | zero => simp [stringifyValue] at hf
    | succ fuel => exact parseValue_null fuel rest
  | .bool b, fuel, rest, _, hf, _ => by
    cases fuel with
    | zero => cases b <;> simp [stringifyValue] at hf
    | succ fuel =>
      cases b
      · exact parseValue_false fuel rest
      · exact parseValue_true fuel rest
  | num n, fuel, rest, _, hf, hd => by
    cases fuel with
    | zero =>
      obtain ⟨c, t, h, _⟩ := intToChars_head n
      simp [stringifyValue, h] at hf
    | succ fuel => exact parseValue_num fuel n rest hd
  | str s, fuel, rest, _, hf, _ => by
    cases fuel with
    | zero => simp [stringifyValue, quoteJSONString] at hf
    | succ fuel => exact parseValue_str fuel s rest
  | arr [], fuel, rest, _, hf, _ => by
    cases fuel with
    | zero => simp [stringifyValue] at hf
    | succ fuel => exact parseValue_emptyArr fuel rest
  | arr (x :: xs), fuel, rest, hp, hf, _ => by
    cases fuel with
    | zero => simp [stringifyValue] at hf
    | succ fuel =>
      apply parseValue_arr_of_elems
      apply parseElems_stringify (x :: xs) fuel rest (by simp)
      · simpa [PlainKeys] using hp
      · simp only [stringifyValue, List.length_cons, List.length_append] at hf
        simp only [itemsText, List.length_append]
        omega
  | obj [], fuel, rest, _, hf, _ => by
    cases fuel with
    | zero => simp [stringifyValue] at hf
    | succ fuel => exact parseValue_emptyObj fuel rest
  | obj ((k, v) :: ps), fuel, rest, hp, hf, _ => by
    cases fuel with
    | zero => simp [stringifyValue] at hf
    | succ fuel =>
      rw [PlainKeys] at hp
      apply parseValue_obj_of_members
      · exact buildProps_plain _ hp.1 hp.2.1
      · apply parseMembers_stringify ((k, v) :: ps) fuel rest (by simp) hp.2.2
        simp only [stringifyValue, List.length_cons, List.length_append] at hf
        simp only [propsText, List.length_append, List.length_cons]
        omega
theorem parseElems_stringify : ∀ (l : List JSValue) (fuel : Nat) (rest : List Char),
    l ≠ [] → PlainKeysItems l → 2 * (itemsText l).length + 1 ≤ fuel →
    parseElems fuel (itemsText l ++ rest) = .ok (l, rest)
  | [], _, _, hne, _, _ => absurd rfl hne
  | x :: xs, fuel, rest, _, hp, hf => by
    cases fuel with
    | zero => simp at hf
    | succ fuel =>
      rw [PlainKeysItems] at hp
      have hlen := stringifyItems_length xs
      simp only [itemsText, List.length_append] at hf
      apply parseElems_step
      · exact parseValue_stringify x fuel _ hp.1 (by omega) (delim_items xs rest)
      · intro hne
        apply parseElems_stringify xs fuel rest hne hp.2
        omega
theorem parseMembers_stringify : ∀ (l : List (String × JSValue)) (fuel : Nat)
    (rest : List Char),
    l ≠ [] → PlainKeysProps l → 2 * (propsText l).length + 1 ≤ fuel →
    parseMembers fuel (propsText l ++ rest) = .ok (l, rest)
  | [], _, _, hne, _, _ => absurd rfl hne
  | (k, v) :: ps, fuel, rest, _, hp, hf => by
    cases fuel with
    | zero => simp at hf
    | succ fuel =>
      rw [PlainKeysProps] at hp
      have hlen := stringifyProps_length ps
      simp only [propsText, List.length_append, List.length_cons] at hf
      apply parseMembers_step
      · exact parseValue_stringify v fuel _ hp.1 (by omega) (delim_props ps rest)
      · intro hne
        apply parseMembers_stringify ps fuel rest hne hp.2
        omega
end

theorem delim_nil : Delim [] := by
  intro c hc
  simp at hc

/-- `JSON.parse(JSON.stringify(v))` is `v` for every value with plain keys. -/
theorem parse_stringify (v : JSValue) (h : PlainKeys v) :
    JSON.parse (JSON.stringify v) = .ok v := by
  unfold JSON.parse JSON.stringify
  have := parseValue_stringify v (2 * (stringifyValue v).length + 2) [] h (by omega) delim_nil
  simp only [List.append_nil] at this
  simp [this, skipWs]

/-! ## Binary64 arithmetic on safe integers -/

set_option exponentiation.threshold 4000
set_option maxRecDepth 100000

theorem bitLengthAux_le (fuel n k : Nat) (h : n < 2 ^ k) : bitLengthAux fuel n ≤ k := by
  induction fuel generalizing n k with
  | zero => simp [bitLengthAux]
  | succ fuel ih =>
    rw [bitLengthAux]
    split
    · omega
    · rename_i hn
      cases k with
      | zero => simp at h; exact absurd h hn
      | succ k =>
        have : n / 2 < 2 ^ k := by
          rw [Nat.div_lt_iff_lt_mul (by norm_num)]
          rw [Nat.pow_succ] at h
          exact h
        have := ih (n / 2) k this
        omega

theorem safe_units_lt (m : Nat) (hm : m < 2 ^ 53) : m * unitsPerOne < 2 ^ 1127 := by
  have : (2:Nat) ^ 1127 = 2 ^ 53 * 2 ^ 1074 := by rw [← Nat.pow_add]
  rw [this, unitsPerOne]
  exact Nat.mul_lt_mul_of_lt_of_le hm (Nat.le_refl _) (Nat.pow_pos (by norm_num))

/-- A count of units that is a safe integer times `2^1074` is a binary64 value: rounding a
ratio that equals it changes nothing. -/
theorem roundUnits_exact (m d : Nat) (hm : m < 2 ^ 53) (hd : 0 < d) :
    roundUnits (m * unitsPerOne * d) d = m * unitsPerOne := by
  have hb := bitLengthAux_le 2098 (m * unitsPerOne) 1127 (safe_units_lt m hm)
  unfold roundUnits
  rw [Nat.mul_div_cancel _ hd]
  generalize hshift : bitLengthAux 2098 (m * unitsPerOne) - 53 = shift
  have hs : shift ≤ 1074 := by omega
  have hU : unitsPerOne = 2 ^ (1074 - shift) * 2 ^ shift := by
    rw [← Nat.pow_add, Nat.sub_add_cancel hs]
    rfl
  have hunit : 0 < d * 2 ^ shift := Nat.mul_pos hd (Nat.pow_pos (by norm_num))
  have hfac : m * unitsPerOne * d = m * 2 ^ (1074 - shift) * (d * 2 ^ shift) := by
    rw [hU]; ring
  have hbase : m * unitsPerOne * d / (d * 2 ^ shift) = m * 2 ^ (1074 - shift) := by
    rw [hfac, Nat.mul_div_cancel _ hunit]
  have hrem : m * unitsPerOne * d % (d * 2 ^ shift) = 0 := by
    rw [hfac, Nat.mul_mod_left]
  simp only [hbase, hrem, Nat.mul_zero]
  have h1 : ¬ (d * 2 ^ shift < 0 ∨ (0 = d * 2 ^ shift ∧ m * 2 ^ (1074 - shift) % 2 = 1)) := by
    omega
  rw [if_neg h1, hU]
  ring

theorem roundBinary64_exact (negative : Bool) (m d : Nat) (hm : m < 2 ^ 53) (hd : 0 < d) :
    roundBinary64 negative (m * unitsPerOne * d) d =
      .fin (if negative then -((m * unitsPerOne : Nat) : Int) else ((m * unitsPerOne : Nat) : Int)) := by
  have hlt : m * unitsPerOne < 2 ^ 2098 :=
    Nat.lt_of_lt_of_le (safe_units_lt m hm) (Nat.pow_le_pow_right (by norm_num) (by norm_num))
  unfold roundBinary64
  rw [Nat.mul_div_cancel _ hd, roundUnits_exact m d hm hd]
  simp only [Nat.not_le.mpr hlt, if_false]

/-- The Number value of a safe integer `n`, from its sign and magnitude. -/
theorem roundBinary64_ofInt (n : Int) (d : Nat) (hn : n.natAbs < 2 ^ 53) (hd : 0 < d) :
    roundBinary64 (decide (n < 0)) (n.natAbs * unitsPerOne * d) d = JSNum.ofInt n := by
  rw [roundBinary64_exact _ _ _ hn hd, JSNum.ofInt]
  congr 1
  by_cases h : n < 0
  · simp only [h, decide_True, if_true, Nat.cast_mul]
    rw [Int.ofNat_natAbs_of_nonpos (le_of_lt h)]
    ring
  · simp only [h, decide_False, Bool.false_eq_true, if_false, Nat.cast_mul]
    rw [Int.natAbs_of_nonneg (not_lt.mp h)]

theorem numAdd_ofInt (a b : Int) (h : (a + b).natAbs < 2 ^ 53) :
    numAdd (JSNum.ofInt a) (JSNum.ofInt b) = JSNum.ofInt (a + b) := by
  have hsum : a * (unitsPerOne : Int) + b * unitsPerOne = (a + b) * unitsPerOne := by ring
  have hpos : (0 : Int) < unitsPerOne := by
    have : 0 < unitsPerOne := Nat.pow_pos (by norm_num)
    exact_mod_cast this
  have hsign : decide ((a + b) * (unitsPerOne : Int) < 0) = decide (a + b < 0) := by
    congr 1
    apply propext
    constructor
    · intro h1
      by_contra h2
      have := Int.mul_nonneg (not_lt.mp h2) (le_of_lt hpos)
      omega
    · intro h1
      exact Int.mul_neg_of_neg_of_pos h1 hpos
  have habs : ((a + b) * (unitsPerOne : Int)).natAbs = (a + b).natAbs * unitsPerOne := by
    rw [Int.natAbs_mul, Int.natAbs_ofNat]
  have := roundBinary64_ofInt (a + b) 1 h (by norm_num)
  simp only [Nat.mul_one] at this
  simp only [JSNum.ofInt, numAdd, hsum, hsign, habs, this]

theorem toNumber_num (n : Int) (h : n.natAbs < 2 ^ 53) :
    toNumber (some (num n)) = .ok (JSNum.ofInt n) := by
  have := roundBinary64_ofInt n 1 h (by norm_num)
  simp only [Nat.mul_one] at this
  simp only [toNumber, this]

/-! ## Numeric texts -/

theorem digitsToNat_eq_decimalValue (ds : List Char) : digitsToNat ds = decimalValue ds := by
  induction ds using List.reverseRecOn with
  | nil => simp [digitsToNat, decimalValue]
  | append_singleton init c ih =>
    rw [digitsToNat_append_singleton, ih]
    simp [decimalValue, Nat.ofDigits_cons]
    ring

theorem isStrWhiteSpace_digit (c : Char) (h : c.isDigit = true) :
    isStrWhiteSpace c = false := by
  simp only [Char.isDigit, Bool.and_eq_true, decide_eq_true_eq] at h
  have h1 : 48 ≤ c.toNat := h.1
  have h2 : c.toNat ≤ 57 := h.2
  simp only [isStrWhiteSpace, Bool.or_eq_false_iff, Bool.and_eq_false_iff,
    decide_eq_false_iff_not]
  omega

theorem dropWhile_of_head {α : Type} (p : α → Bool) (l : List α)
    (h : ∀ x ∈ l.head?, p x = false) : l.dropWhile p = l := by
  cases l with
  | nil => rfl
  | cons x xs => simp [List.dropWhile, h x (by simp)]

theorem dropWhile_append_of_all {α : Type} (p : α → Bool) (ws rest : List α)
    (h : ∀ x ∈ ws, p x = true) : (ws ++ rest).dropWhile p = rest.dropWhile p := by
  induction ws with
  | nil => rfl
  | cons w ws ih =>
    rw [List.cons_append, List.dropWhile_cons, h w (by simp)]
    exact ih (fun x hx => h x (by simp [hx]))

/-- Trimming takes white space off both ends of a text whose core holds none. -/
theorem trimChars_padded (ws1 body ws2 : List Char)
    (h1 : ∀ c ∈ ws1, isStrWhiteSpace c = true) (h2 : ∀ c ∈ ws2, isStrWhiteSpace c = true)
    (hbody : ∀ c ∈ body, isStrWhiteSpace c = false) (hne : body ≠ []) :
    trimChars (ws1 ++ body ++ ws2) = body := by
  unfold trimChars
  rw [List.append_assoc, dropWhile_append_of_all _ ws1 _ h1]
  rw [dropWhile_of_head _ (body ++ ws2)]
  · rw [List.reverse_append, dropWhile_append_of_all _ ws2.reverse _
      (fun x hx => h2 x (List.mem_reverse.mp hx))]
    rw [dropWhile_of_head _ body.reverse
      (fun x hx => hbody x (List.mem_reverse.mp (List.mem_of_mem_head? hx)))]
    exact List.reverse_reverse body
  · intro x hx
    cases body with
    | nil => exact absurd rfl hne
    | cons b bs =>
      simp only [List.cons_append, List.head?_cons, Option.mem_def, Option.some.injEq] at hx
      subst hx
      exact hbody _ (by simp)

theorem splitSign_sign (sign rest : List Char) (hsign : IsSign sign)
    (hrest : ∀ c ∈ rest.head?, c ≠ '-' ∧ c ≠ '+') :
    splitSign (sign ++ rest) = (decide (sign = ['-']), rest) := by
  rcases hsign with h | h | h
  · subst h
    cases rest with
    | nil => simp [splitSign]
    | cons c r =>
      have := hrest c (by simp)
      simp [splitSign, this.1, this.2]
  · subst h; simp [splitSign]
  · subst h; simp [splitSign]

theorem digit_not_sign (c : Char) (h : c.isDigit = true) : c ≠ '-' ∧ c ≠ '+' := by
  constructor <;> (intro hc; subst hc; exact absurd h (by decide))

theorem applySign_cast (sign : List Char) (m : Nat) :
    (if decide (sign = ['-']) = true then -(m : Int) else (m : Int)) = applySign sign m := by
  simp [applySign]

theorem parseExponent_text (text : List Char) (e : Int) (h : ExponentText text e) :
    parseExponent text = some e := by
  rcases h with ⟨h1, h2⟩ | ⟨mark, sign, ds, htext, hmark, hsign, hne, hds, he⟩
  · subst h1 h2; rfl
  · subst htext
    have hhead : ∀ c ∈ ds.head?, c ≠ '-' ∧ c ≠ '+' := fun c hc =>
      digit_not_sign c (hds c (List.mem_of_mem_head? hc))
    have hemp : ds.isEmpty = false := by
      cases ds with
      | nil => exact absurd rfl hne
      | cons d t => rfl
    have hall : ds.all Char.isDigit = true := List.all_eq_true.mpr hds
    rw [parseExponent, if_pos hmark, splitSign_sign sign ds hsign hhead]
    simp only [hemp, hall, and_self, if_true, applySign_cast, digitsToNat_eq_decimalValue, he]

theorem exponentText_head (text : List Char) (e : Int) (h : ExponentText text e) :
    ∀ c ∈ text.head?, c.isDigit = false ∧ c ≠ '.' := by
  intro c hc
  rcases h with ⟨h1, _⟩ | ⟨mark, sign, ds, htext, hmark, _⟩
  · subst h1; simp at hc
  · subst htext
    simp only [List.head?_cons, Option.mem_def, Option.some.injEq] at hc
    subst hc
    rcases hmark with h | h <;> subst h <;> exact ⟨by decide, by decide⟩

theorem parseUnsignedDecimal_text (ip fracText fp expText : List Char) (e : Int)
    (hip : ∀ c ∈ ip, c.isDigit = true) (hfp : ∀ c ∈ fp, c.isDigit = true)
    (hfrac : (fracText = [] ∧ fp = []) ∨ fracText = '.' :: fp) (hne : ip ≠ [] ∨ fp ≠ [])
    (hexp : ExponentText expText e) :
    parseUnsignedDecimal (ip ++ (fracText ++ expText)) = some ⟨ip, fp, e⟩ := by
  have hpe := parseExponent_text expText e hexp
  have hhead := exponentText_head expText e hexp
  unfold parseUnsignedDecimal
  rcases hfrac with ⟨h1, h2⟩ | h1
  · subst h1 h2
    have hipne : ip.isEmpty = false := by
      cases ip with
      | nil => simp at hne
      | cons d t => rfl
    rw [List.nil_append, span_digits_append ip expText hip (fun c hc => (hhead c hc).1)]
    cases expText with
    | nil =>
      simp only [parseExponent, Option.some.injEq] at hpe
      simp [hipne, hpe]
    | cons c r =>
      have hc := (hhead c (by simp)).2
      simp [hc, hipne, hpe]
  · subst h1
    rw [List.cons_append, span_digits_append ip ('.' :: (fp ++ expText)) hip
      (fun c hc => by
        simp only [List.head?_cons, Option.mem_def, Option.some.injEq] at hc
        subst hc; decide)]
    simp only [if_true]
    rw [span_digits_append fp expText hfp (fun c hc => (hhead c hc).1)]
    have hboth : ip = [] → ¬ fp = [] := by
      intro h1 h2
      rcases hne with h | h
      · exact h h1
      · exact h h2
    simpa [hpe] using hboth

/-- Every character of the core of a numeric text is a sign, a digit, the point or an
exponent mark, none of them white space. -/
theorem numericCore_no_space (sign ip fracText fp expText : List Char) (e : Int)
    (hsign : IsSign sign) (hip : ∀ c ∈ ip, c.isDigit = true) (hfp : ∀ c ∈ fp, c.isDigit = true)
    (hfrac : (fracText = [] ∧ fp = []) ∨ fracText = '.' :: fp)
    (hexp : ExponentText expText e) :
    ∀ c ∈ sign ++ (ip ++ (fracText ++ expText)), isStrWhiteSpace c = false := by
  have hs : ∀ s, IsSign s → ∀ c ∈ s, isStrWhiteSpace c = false := by
    intro s hs c hc
    rcases hs with h | h | h <;> subst h
    · simp at hc
    · simp only [List.mem_singleton] at hc; subst hc; decide
    · simp only [List.mem_singleton] at hc; subst hc; decide
  intro c hc
  simp only [List.mem_append] at hc
  rcases hc with hc | hc | hc | hc
  · exact hs sign hsign c hc
  · exact isStrWhiteSpace_digit c (hip c hc)
  · rcases hfrac with ⟨h1, _⟩ | h1
    · subst h1; simp at hc
    · subst h1
      simp only [List.mem_cons] at hc
      rcases hc with hc | hc
      · subst hc; decide
      · exact isStrWhiteSpace_digit c (hfp c hc)
  · rcases hexp with ⟨h1, _⟩ | ⟨mark, esign, ds, htext, hmark, hesign, _, hds, _⟩
    · subst h1; simp at hc
    · subst htext
      simp only [List.mem_cons, List.mem_append] at hc
      rcases hc with hc | hc | hc
      · subst hc; rcases hmark with h | h <;> subst h <;> decide
      · exact hs esign hesign c hc
      · exact isStrWhiteSpace_digit c (hds c hc)

/-- The Number value of a decimal literal that writes the safe integer `n`. -/
theorem decimalToNumber_denoted (sign ip fp : List Char) (e n : Int)
    (hval : applySign sign (decimalValue (ip ++ fp)) * 10 ^ (e - (fp.length : Int)).toNat =
      n * 10 ^ ((fp.length : Int) - e).toNat)
    (hn : n.natAbs < 2 ^ 53) :
    decimalToNumber (decide (sign = ['-'])) ⟨ip, fp, e⟩ = JSNum.ofInt n := by
  unfold decimalToNumber
  simp only [digitsToNat_eq_decimalValue]
  have hb : (-(e - (fp.length : Int))).toNat = ((fp.length : Int) - e).toNat := by
    congr 1; ring
  rw [hb]
  generalize (e - (fp.length : Int)).toNat = a at *
  generalize ((fp.length : Int) - e).toNat = b at *
  generalize decimalValue (ip ++ fp) = m at *
  have hmag : m * 10 ^ a = n.natAbs * 10 ^ b := by
    have := congrArg Int.natAbs hval
    simp only [Int.natAbs_mul, Int.natAbs_pow] at this
    have h10 : (10 : Int).natAbs = 10 := rfl
    have hm : (applySign sign (m : Int)).natAbs = m := by
      unfold applySign; split <;> simp
    rw [h10, hm] at this
    exact this
  have harg : m * 10 ^ a * unitsPerOne = n.natAbs * unitsPerOne * 10 ^ b := by
    rw [hmag]; ring
  have hpos : 0 < 10 ^ b := Nat.pow_pos (by norm_num)
  rw [harg, roundBinary64_exact _ _ _ hn hpos, JSNum.ofInt]
  congr 1
  have hposI : (0 : Int) < 10 ^ b := by positivity
  have hposA : (0 : Int) ≤ 10 ^ a := by positivity
  by_cases hs : sign = ['-']
  · have hle : n ≤ 0 := by
      by_contra hgt
      have h1 : 0 < n * 10 ^ b := Int.mul_pos (not_le.mp hgt) hposI
      rw [← hval, applySign, if_pos hs] at h1
      have h2 : -(m : Int) * 10 ^ a ≤ 0 :=
        Int.mul_nonpos_of_nonpos_of_nonneg (by omega) hposA
      omega
    simp only [hs, decide_True, if_true, Nat.cast_mul]
    rw [Int.ofNat_natAbs_of_nonpos hle]
    ring
  · have hge : 0 ≤ n := by
      by_contra hlt
      have h1 : n * 10 ^ b < 0 := Int.mul_neg_of_neg_of_pos (not_le.mp hlt) hposI
      rw [← hval, applySign, if_neg hs] at h1
      have h2 : 0 ≤ (m : Int) * 10 ^ a := Int.mul_nonneg (by omega) hposA
      omega
    simp only [hs, decide_False, Bool.false_eq_true, if_false, Nat.cast_mul]
    rw [Int.natAbs_of_nonneg hge]

/-- `Number(t)` of a numeric text that denotes the safe integer `n` is `n`. -/
theorem strToNumber_numericText (t : String) (n : Int) (h : NumericText t n)
    (hn : n.natAbs < 2 ^ 53) : strToNumber t = JSNum.ofInt n := by
  obtain ⟨ws1, ws2, sign, ip, fracText, fp, expText, e, htext, hws1, hws2, hsign, hip, hfp,
    hfrac, hne, hexp, hval⟩ := h
  have hcore := numericCore_no_space sign ip fracText fp expText e hsign hip hfp hfrac hexp
  have hrest : ∃ c r, ip ++ (fracText ++ expText) = c :: r ∧ (c.isDigit = true ∨ c = '.') := by
    cases ip with
    | cons d t => exact ⟨d, _, rfl, Or.inl (hip d (by simp))⟩
    | nil =>
      rcases hfrac with ⟨h1, h2⟩ | h1
      · subst h2; simp at hne
      · subst h1; exact ⟨'.', _, rfl, Or.inr rfl⟩
  obtain ⟨c, r, hcr, hc⟩ := hrest
  have hcsign : c ≠ '-' ∧ c ≠ '+' := by
    rcases hc with hc | hc
    · exact digit_not_sign c hc
    · subst hc; exact ⟨by decide, by decide⟩
  have hbodyne : sign ++ (ip ++ (fracText ++ expText)) ≠ [] := by
    rw [hcr]; simp
  have htrim := trimChars_padded ws1 _ ws2 hws1 hws2 hcore hbodyne
  have hsplit : splitSign (sign ++ (ip ++ (fracText ++ expText))) =
      (decide (sign = ['-']), ip ++ (fracText ++ expText)) := by
    apply splitSign_sign _ _ hsign
    intro x hx
    rw [hcr] at hx
    simp only [List.head?_cons, Option.mem_def, Option.some.injEq] at hx
    subst hx
    exact hcsign
  have hparse := parseUnsignedDecimal_text ip fracText fp expText e hip hfp hfrac hne hexp
  have hemp : (sign ++ (ip ++ (fracText ++ expText))).isEmpty = false := by
    cases hb : sign ++ (ip ++ (fracText ++ expText)) with
    | nil => exact absurd hb hbodyne
    | cons x xs => rfl
  unfold strToNumber
  simp only [htext, htrim, hemp, hsplit, hparse, Bool.false_eq_true, if_false]
  exact decimalToNumber_denoted sign ip fp e n hval hn

/-! ## The lookup and the filter on a fee without a student -/

theorem reachable_mixed : Reachable laterStudents defaultCourses mixedFees :=
  Reachable.addFee _ _ _ (Reachable.addStudent _ _ _ (Reachable.addFee _ _ _ Reachable.firstRun))

/-- C1. The code fails where the claim requires `"Unknown"`: the first fee of a reachable
state has `studentId` `null`, which is the id the fee table passes to `getStudentName`; no
student has that id, and with one student in the collection the lookup throws a `TypeError`
instead of returning `"Unknown"`. -/
theorem getStudentName_throws_on_null_id :
    Reachable laterStudents defaultCourses mixedFees ∧
    (∃ fee rest, mixedFees = fee :: rest ∧ getProp fee "studentId" = .ok (some null)) ∧
    (∃ student, laterStudents = [student] ∧
      getProp student "id" = .ok (some (num 1700000060000))) ∧
    getStudentName laterStudents (some null) = .error typeError ∧
    getStudentName laterStudents (some null) ≠ .ok (str "Unknown") := by
  have h : getStudentName laterStudents (some null) = .error typeError := rfl
  refine ⟨reachable_mixed, ⟨_, _, rfl, rfl⟩, ⟨_, rfl, rfl⟩, h, ?_⟩
  rw [h]
  simp

/-- C2. The code fails where the claim requires a subsequence: on a reachable state whose
first fee has `studentId` `null` and whose second fee is a Cash fee of the student Ana, the
filter `Cash` / `an` throws a `TypeError` for every lower-casing function, although on the
second fee alone it returns that fee. -/
theorem filteredFees_search_throws_on_orphan_fee :
    Reachable laterStudents defaultCourses mixedFees ∧
    (∀ toLowerCase : String → String,
      filteredFees toLowerCase laterStudents mixedFees "Cash" "an" = .error typeError) ∧
    (∀ toLowerCase : String → String, ∀ result,
      filteredFees toLowerCase laterStudents mixedFees "Cash" "an" ≠ .ok result) ∧
    filteredFees asciiLower laterStudents (mixedFees.drop 1) "Cash" "an" =
      .ok (mixedFees.drop 1) := by
  have h : ∀ toLowerCase : String → String,
      filteredFees toLowerCase laterStudents mixedFees "Cash" "an" = .error typeError :=
    fun _ => rfl
  refine ⟨reachable_mixed, h, ?_, rfl⟩
  intro toLowerCase result
  rw [h]
  simp

/-- C10. The code fails where the claim requires the whole collection: on a reachable state
whose first fee has `studentId` `null`, filtering with `all` and the empty search text throws
a `TypeError` for every lower-casing function instead of returning the fee collection. -/
theorem filteredFees_all_throws_on_orphan_fee :
    Reachable laterStudents defaultCourses mixedFees ∧
    mixedFees.length = 2 ∧
    (∀ toLowerCase : String → String,
      filteredFees toLowerCase laterStudents mixedFees "all" "" = .error typeError) ∧
    (∀ toLowerCase : String → String,
      filteredFees toLowerCase laterStudents mixedFees "all" "" ≠ .ok mixedFees) := by
  have h : ∀ toLowerCase : String → String,
      filteredFees toLowerCase laterStudents mixedFees "all" "" = .error typeError :=
    fun _ => rfl
  refine ⟨reachable_mixed, rfl, h, ?_⟩
  intro toLowerCase
  rw [h]
  simp

theorem addStudents_eq (calls : List (Int × String × FormData)) (students : List JSValue) :
    addStudents calls students =
      students ++ calls.map (fun c => newStudent c.1 c.2.1 c.2.2) := by
  induction calls generalizing students with
  | nil => simp [addStudents]
  | cons c cs ih =>
    have := ih (addStudent c.1 c.2.1 c.2.2 students)
    simp only [addStudents, List.foldl_cons] at this ⊢
    rw [this]
    simp [addStudent]

theorem addedIds_eq (calls : List (Int × String × FormData)) (students : List JSValue) :
    addedIds calls students = calls.map (fun c => some (num c.1)) := by
  unfold addedIds
  rw [addStudents_eq, List.drop_left, List.map_map]
  apply List.map_congr_left
  intro c _
  rfl

/-- C3, amended. Every `addStudent` call appends exactly one record after the unchanged
existing records, so a run of calls makes the collection longer by the number of calls; the
id assigned by a call is the clock reading of that call, so the assigned ids are pairwise
distinct and increasing in creation order whenever the successive clock readings are strictly
increasing. -/
theorem addStudents_appends (calls : List (Int × String × FormData))
    (students : List JSValue) :
    (∀ now today formData, addStudent now today formData students =
      students ++ [newStudent now today formData] ∧
      (addStudent now today formData students).length = students.length + 1) ∧
    addStudents calls students =
      students ++ calls.map (fun c => newStudent c.1 c.2.1 c.2.2) ∧
    (addStudents calls students).length = students.length + calls.length ∧
    addedIds calls students = calls.map (fun c => some (num c.1)) ∧
    ((calls.map (fun c => c.1)).Pairwise (fun a b => a < b) →
      (addedIds calls students).Pairwise (fun a b => a ≠ b)) := by
  refine ⟨fun now today formData => ⟨rfl, by simp [addStudent]⟩, addStudents_eq calls students,
    by simp [addStudents_eq], addedIds_eq calls students, ?_⟩
  intro hinc
  rw [addedIds_eq, List.pairwise_map]
  rw [List.pairwise_map] at hinc
  refine hinc.imp ?_
  intro a b hlt heq
  simp only [Option.some.injEq, num.injEq] at heq
  omega

/-- Two calls one millisecond apart get distinct ids. -/
theorem addStudents_appends_witness :
    ([(1700000000000 : Int), 1700000000001].Pairwise (fun a b => a < b)) ∧
    (addedIds [(1700000000000, "11/14/2023", sampleStudentForm),
      (1700000000001, "11/14/2023", sampleStudentForm)] []).Pairwise (fun a b => a ≠ b) :=
  ⟨by simp, (addStudents_appends [(1700000000000, "11/14/2023", sampleStudentForm),
      (1700000000001, "11/14/2023", sampleStudentForm)] []).2.2.2.2 (by simp)⟩

/-- C3 as stated fails: two `addStudent` calls that read the same clock value assign the same
id to both added students. -/
theorem addStudents_same_clock_same_id :
    addedIds sameClockCalls [] = [some (num 1700000000000), some (num 1700000000000)] ∧
    ¬ (addedIds sameClockCalls []).Pairwise (fun a b => a ≠ b) := by
  have h : addedIds sameClockCalls [] =
      [some (num 1700000000000), some (num 1700000000000)] := rfl
  refine ⟨h, ?_⟩
  rw [h]
  simp

/-- C4, amended. `addFee` appends exactly one record at the end of the fee collection; in that
record the id is the clock reading, and `studentId`, `amount`, `month` and `method` are what
the form submitted: the submitted text as a text, or `null` for a field without an entry. The
amount is never stored as a number. -/
theorem addFee_appends (now : Int) (today : String) (formData : FormData)
    (fees : List JSValue) :
    ∃ record, addFee now today formData fees = fees ++ [record] ∧
      (addFee now today formData fees).length = fees.length + 1 ∧
      getProp record "id" = .ok (some (num now)) ∧
      getProp record "studentId" = .ok (some (formDataGet formData "studentId")) ∧
      getProp record "amount" = .ok (some (formDataGet formData "amount")) ∧
      getProp record "month" = .ok (some (formDataGet formData "month")) ∧
      getProp record "method" = .ok (some (formDataGet formData "method")) ∧
      (∀ q : Int, getProp record "amount" ≠ .ok (some (num q))) ∧
      (∀ text : String, formDataGet formData "amount" = str text ↔
        formData.lookup "amount" = some text) := by
  refine ⟨newFee now today formData, rfl, by simp [addFee], rfl, rfl, rfl, rfl, rfl, ?_, ?_⟩
  · intro q h
    have h2 : formDataGet formData "amount" = num q := by
      have h1 : getProp (newFee now today formData) "amount" =
          .ok (some (formDataGet formData "amount")) := rfl
      rw [h1] at h
      simpa using h
    unfold formDataGet at h2
    split at h2 <;> cases h2
  · intro text
    unfold formDataGet
    split
    · rename_i v hv
      simp [hv]
    · rename_i hv
      simp [hv]

/-- The sample fee form is stored with its texts: student `"1700000000000"`, amount `"500"`,
month `"2023-10"`, method `"Cash"`. -/
theorem addFee_appends_witness :
    ∃ record, addFee 1700000000500 "11/14/2023" sampleFeeForm sampleFees =
        sampleFees ++ [record] ∧
      getProp record "id" = .ok (some (num 1700000000500)) ∧
      getProp record "studentId" = .ok (some (str "1700000000000")) ∧
      getProp record "amount" = .ok (some (str "500")) ∧
      getProp record "month" = .ok (some (str "2023-10")) ∧
      getProp record "method" = .ok (some (str "Cash")) := by
  obtain ⟨record, h1, _, h3, h4, h5, h6, h7, _, _⟩ :=
    addFee_appends 1700000000500 "11/14/2023" sampleFeeForm sampleFees
  exact ⟨record, h1, h3, h4, h5, h6, h7⟩

/-- C4 as stated fails: the submitted amount `500` is stored as the text `"500"`, not as the
number `500`. -/
theorem addFee_amount_is_text :
    ∃ record, addFee 1700000000000 "11/14/2023" sampleFeeForm [] = [record] ∧
      getProp record "amount" = .ok (some (str "500")) ∧
      getProp record "amount" ≠ .ok (some (num 500)) := by
  refine ⟨newFee 1700000000000 "11/14/2023" sampleFeeForm, rfl, rfl, ?_⟩
  intro h
  have h1 : getProp (newFee 1700000000000 "11/14/2023" sampleFeeForm) "amount" =
      .ok (some (str "500")) := rfl
  rw [h1] at h
  simp at h

/-! ## Revenue total -/

theorem toNumber_feeAmount (f : JSValue) (n : Int) (h : FeeAmount f n)
    (hn : n.natAbs < 2 ^ 53) :
    ∃ a, getProp f "amount" = .ok a ∧ toNumber a = .ok (JSNum.ofInt n) := by
  obtain ⟨props, rfl, h | ⟨t, ht, hnum⟩⟩ := h
  · exact ⟨_, rfl, by rw [h]; exact toNumber_num n hn⟩
  · refine ⟨_, rfl, ?_⟩
    rw [ht]
    simp only [toNumber, strToNumber_numericText t n hnum hn]

theorem reduceRevenue_sum (fees : List JSValue) (amounts : List Int) (a : Int)
    (hamounts : List.Forall₂ FeeAmount fees amounts)
    (hsafe : a.natAbs + (amounts.map Int.natAbs).sum ≤ maxSafeInteger) :
    reduceRevenue (JSNum.ofInt a) fees = .ok (JSNum.ofInt (a + amounts.sum)) := by
  induction hamounts generalizing a with
  | nil => simp [reduceRevenue]
  | @cons f n fees amounts hf _ ih =>
    simp only [List.map_cons, List.sum_cons, maxSafeInteger] at hsafe
    obtain ⟨v, hv, hnum⟩ := toNumber_feeAmount f n hf (by norm_num; omega)
    have hadd := numAdd_ofInt a n (by norm_num; omega)
    rw [reduceRevenue, hv]
    simp only [hnum, hadd]
    rw [ih (a + n) (by simp only [maxSafeInteger]; omega), List.sum_cons, Int.add_assoc]

/-- C5, amended. The dashboard total of the empty fee collection is `0`. For every fee
collection in which each amount is an integer, stored as a number or as a numeric text that
denotes it, and in which the absolute values of the amounts add up to at most `2^53 - 1`, the
total is the sum of the amounts. -/
theorem totalRevenue_sum (fees : List JSValue) (amounts : List Int)
    (hamounts : List.Forall₂ FeeAmount fees amounts)
    (hsafe : (amounts.map Int.natAbs).sum ≤ maxSafeInteger) :
    totalRevenue [] = .ok (JSNum.ofInt 0) ∧
    totalRevenue fees = .ok (JSNum.ofInt amounts.sum) := by
  have hzero : JSNum.fin 0 = JSNum.ofInt 0 := by simp [JSNum.ofInt]
  constructor
  · simp [totalRevenue, reduceRevenue, hzero]
  · have := reduceRevenue_sum fees amounts 0 hamounts (by simpa using hsafe)
    simpa [totalRevenue, hzero] using this

theorem numericText_plain (ds : List Char) (n : Nat) (hds : ∀ c ∈ ds, c.isDigit = true)
    (hne : ds ≠ []) (hval : decimalValue ds = n) : NumericText (String.mk ds) n := by
  refine ⟨[], [], [], ds, [], [], [], 0, by simp, by simp, by simp, Or.inl rfl, hds, by simp,
    Or.inl ⟨rfl, rfl⟩, Or.inl hne, Or.inl ⟨rfl, rfl⟩, ?_⟩
  simp [applySign, hval]

/-- Fees with amounts `500` and `450` total `950`, stored as numbers, or as the texts that
the fee form submits, also with an exponent and with white space around the digits. -/
theorem totalRevenue_sum_witness :
    totalRevenue [obj [("amount", num 500)], obj [("amount", num 450)]] =
      .ok (JSNum.ofInt 950) ∧
    totalRevenue [obj [("id", num 1), ("amount", str "500")],
        obj [("id", num 2), ("amount", str " 45e1 ")]] = .ok (JSNum.ofInt 950) := by
  constructor
  · exact (totalRevenue_sum [obj [("amount", num 500)], obj [("amount", num 450)]] [500, 450]
      (List.Forall₂.cons ⟨_, rfl, Or.inl rfl⟩
        (List.Forall₂.cons ⟨_, rfl, Or.inl rfl⟩ List.Forall₂.nil))
      (by decide)).2
  · exact (totalRevenue_sum [obj [("id", num 1), ("amount", str "500")],
        obj [("id", num 2), ("amount", str " 45e1 ")]] [500, 450]
      (List.Forall₂.cons
        ⟨_, rfl, Or.inr ⟨"500", rfl,
          numericText_plain ['5', '0', '0'] 500 (by decide) (by simp) (by decide)⟩⟩
        (List.Forall₂.cons
          ⟨_, rfl, Or.inr ⟨" 45e1 ", rfl,
            ⟨[' '], [' '], [], ['4', '5'], [], [], ['e', '1'], 1, rfl, by decide, by decide,
              Or.inl rfl, by decide, by simp, Or.inl ⟨rfl, rfl⟩, Or.inl (by simp),
              Or.inr ⟨'e', [], ['1'], rfl, Or.inl rfl, Or.inl rfl, by simp, by decide,
                by decide⟩,
              by decide⟩⟩⟩
          List.Forall₂.nil))
      (by decide)).2

/-- C5 as stated fails: the fees with amounts `9007199254740991` and `2` total
`9007199254740992` in binary64, not the sum `9007199254740993` of the amounts; and the fees
with amounts `0.1` and `0.2` total a binary64 value that is not `3/10`. -/
theorem totalRevenue_rounds :
    List.Forall₂ FeeAmount largeFees [9007199254740991, 2] ∧
    totalRevenue largeFees = .ok (JSNum.ofInt 9007199254740992) ∧
    totalRevenue largeFees ≠ .ok (JSNum.ofInt (9007199254740991 + 2)) ∧
    ∃ k : Nat, totalRevenue fractionFees = .ok (.fin k) ∧ 10 * k ≠ 3 * unitsPerOne := by
  have h : totalRevenue largeFees = .ok (JSNum.ofInt 9007199254740992) := by rfl
  refine ⟨?_, h, ?_, ?_⟩
  · exact List.Forall₂.cons
      ⟨_, rfl, Or.inr ⟨"9007199254740991", rfl,
        numericText_plain _ 9007199254740991 (by decide) (by simp) (by decide)⟩⟩
      (List.Forall₂.cons
        ⟨_, rfl, Or.inr ⟨"2", rfl, numericText_plain ['2'] 2 (by decide) (by simp) (by decide)⟩⟩
        List.Forall₂.nil)
  · rw [h]
    intro heq
    have h2 : JSNum.ofInt 9007199254740992 = JSNum.ofInt (9007199254740991 + 2) := by
      injection heq
    exact absurd h2 (by decide)
  · exact ⟨5404319552844596 * 2 ^ 1020, by rfl, by decide⟩

/-! ## Load and persist -/

theorem loadOr_absent (store : Storage) (key : String) (dflt : JSValue)
    (h : store key = none) : loadOr store key dflt = .ok dflt := by
  have hp : JSON.parse "null" = .ok null := rfl
  simp [loadOr, h, hp, truthy]

theorem loadOr_error (store : Storage) (key text : String) (dflt : JSValue) (e : JSError)
    (h : store key = some text) (hp : JSON.parse text = .error e) :
    loadOr store key dflt = .error e := by
  simp [loadOr, h, hp]

theorem loadOr_array (store : Storage) (key text : String) (dflt : JSValue)
    (items : List JSValue) (h : store key = some text)
    (hp : JSON.parse text = .ok (arr items)) :
    loadOr store key dflt = .ok (arr items) := by
  simp [loadOr, h, hp, truthy]

theorem persist_students (st : AppState) (store : Storage) :
    persist st store "students" = some (JSON.stringify st.students) := by
  simp [persist, setItem]

theorem persist_courses (st : AppState) (store : Storage) :
    persist st store "courses" = some (JSON.stringify st.courses) := by
  simp [persist, setItem]

theorem persist_fees (st : AppState) (store : Storage) :
    persist st store "fees" = some (JSON.stringify st.fees) := by
  simp [persist, setItem]

/-- C6, amended. When the blob under a key is absent, the loaded students and fees are the
empty sequence and the loaded courses are the seeded defaults, with no error; when the blob
under a key is not well-formed JSON, `JSON.parse` throws a `SyntaxError` and the load of that
key, hence the initial load, raises it. -/
theorem load_absent_or_malformed (store : Storage) :
    (store "students" = none → loadOr store "students" (arr []) = .ok (arr [])) ∧
    (store "fees" = none → loadOr store "fees" (arr []) = .ok (arr [])) ∧
    (store "courses" = none →
      loadOr store "courses" (arr defaultCourses) = .ok (arr defaultCourses)) ∧
    (store "students" = none → store "courses" = none → store "fees" = none →
      initialState store = .ok ⟨arr [], arr defaultCourses, arr []⟩) ∧
    (∀ key text dflt, store key = some text → JSON.parse text = .error syntaxError →
      loadOr store key dflt = .error syntaxError) ∧
    (∀ text, store "students" = some text → JSON.parse text = .error syntaxError →
      initialState store = .error syntaxError) := by
  refine ⟨loadOr_absent store _ _, loadOr_absent store _ _, loadOr_absent store _ _, ?_, ?_, ?_⟩
  · intro h1 h2 h3
    simp [initialState, loadOr_absent store _ _ h1, loadOr_absent store _ _ h2,
      loadOr_absent store _ _ h3]
  · intro key text dflt h hp
    exact loadOr_error store key text dflt _ h hp
  · intro text h hp
    simp [initialState, loadOr_error store "students" text (arr []) _ h hp]

/-- A first run loads the empty collections and the seeded courses; a store whose `students`
blob is truncated makes the initial load raise a `SyntaxError`. -/
theorem load_absent_or_malformed_witness :
    initialState emptyStore = .ok ⟨arr [], arr defaultCourses, arr []⟩ ∧
    initialState truncatedStore = .error syntaxError :=
  ⟨(load_absent_or_malformed emptyStore).2.2.2.1 rfl rfl rfl,
   (load_absent_or_malformed truncatedStore).2.2.2.2.2
     "[\x7b\"id\":1700000000000,\"name\":\"An" rfl rfl⟩

/-- C6 as stated fails: with a `students` blob that is not well-formed JSON, loading raises a
`SyntaxError` instead of yielding the empty sequence. -/
theorem load_malformed_throws :
    truncatedStore "students" = some "[\x7b\"id\":1700000000000,\"name\":\"An" ∧
    loadOr truncatedStore "students" (arr []) = .error syntaxError ∧
    loadOr truncatedStore "students" (arr []) ≠ .ok (arr []) ∧
    initialState truncatedStore = .error syntaxError := by
  have h : loadOr truncatedStore "students" (arr []) = .error syntaxError := rfl
  refine ⟨rfl, h, ?_, rfl⟩
  rw [h]
  simp

/-- C7. The code fails where the claim requires a placeholder: a fee recorded while no student
exists has `studentId` `null`; while the student collection is empty the lookup returns
`"Unknown"`, but once a student has been added the lookup and `filteredFees` throw a
`TypeError` on this reachable state. -/
theorem filteredFees_throws_on_orphan_fee :
    Reachable laterStudents defaultCourses orphanFees ∧
    (∃ record, orphanFees = [record] ∧ getProp record "studentId" = .ok (some null)) ∧
    getStudentName [] (some null) = .ok (str "Unknown") ∧
    getStudentName laterStudents (some null) = .error typeError ∧
    filteredFees asciiLower laterStudents orphanFees "all" "" = .error typeError :=
  ⟨Reachable.addStudent _ _ _ (Reachable.addFee _ _ _ Reachable.firstRun),
   ⟨_, rfl, rfl⟩, rfl, rfl, rfl⟩

/-! ## Reachable states have plain keys -/

theorem plainKeys_formDataGet (formData : FormData) (name : String) :
    PlainKeys (formDataGet formData name) := by
  unfold formDataGet
  split <;> simp [PlainKeys]

theorem plainKeys_newStudent (now : Int) (today : String) (formData : FormData) :
    PlainKeys (newStudent now today formData) := by
  unfold newStudent
  rw [PlainKeys]
  refine ⟨by simp only [List.map_cons, List.map_nil]; decide, ?_, ?_⟩
  · intro k hk
    simp only [List.map_cons, List.map_nil, List.mem_cons, List.mem_singleton,
      List.not_mem_nil, or_false] at hk
    rcases hk with rfl | rfl | rfl | rfl | rfl <;> rfl
  · simp [PlainKeysProps, PlainKeys, plainKeys_formDataGet]

theorem plainKeys_newFee (now : Int) (today : String) (formData : FormData) :
    PlainKeys (newFee now today formData) := by
  unfold newFee
  rw [PlainKeys]
  refine ⟨by simp only [List.map_cons, List.map_nil]; decide, ?_, ?_⟩
  · intro k hk
    simp only [List.map_cons, List.map_nil, List.mem_cons, List.mem_singleton,
      List.not_mem_nil, or_false] at hk
    rcases hk with rfl | rfl | rfl | rfl | rfl | rfl <;> rfl
  · simp [PlainKeysProps, PlainKeys, plainKeys_formDataGet]

theorem plainKeysItems_append (xs : List JSValue) (x : JSValue) (hxs : PlainKeysItems xs)
    (hx : PlainKeys x) : PlainKeysItems (xs ++ [x]) := by
  induction xs with
  | nil => simpa [PlainKeysItems] using hx
  | cons y ys ih =>
    rw [PlainKeysItems] at hxs
    rw [List.cons_append, PlainKeysItems]
    exact ⟨hxs.1, ih hxs.2⟩

theorem plainKeysItems_defaultCourses : PlainKeysItems defaultCourses := by
  unfold defaultCourses
  simp only [PlainKeysItems, PlainKeys, PlainKeysProps, and_true]
  refine ⟨⟨by decide, ?_⟩, ⟨by decide, ?_⟩⟩ <;>
  · intro k hk
    simp only [List.map_cons, List.map_nil, List.mem_cons, List.mem_singleton,
      List.not_mem_nil, or_false] at hk
    rcases hk with rfl | rfl | rfl <;> rfl

theorem reachable_plainKeys {students courses fees : List JSValue}
    (h : Reachable students courses fees) :
    PlainKeysItems students ∧ PlainKeysItems courses ∧ PlainKeysItems fees := by
  induction h with
  | firstRun => exact ⟨by simp [PlainKeysItems], plainKeysItems_defaultCourses,
      by simp [PlainKeysItems]⟩
  | addStudent now today formData _ ih =>
    exact ⟨plainKeysItems_append _ _ ih.1 (plainKeys_newStudent now today formData), ih.2.1,
      ih.2.2⟩
  | addFee now today formData _ ih =>
    exact ⟨ih.1, ih.2.1, plainKeysItems_append _ _ ih.2.2 (plainKeys_newFee now today formData)⟩

theorem loadOr_persisted (store : Storage) (key : String) (dflt : JSValue)
    (items : List JSValue) (hstore : store key = some (JSON.stringify (arr items)))
    (hitems : PlainKeysItems items) : loadOr store key dflt = .ok (arr items) :=
  loadOr_array store key _ dflt items hstore
    (parse_stringify (arr items) (by rw [PlainKeys]; exact hitems))

theorem initialState_of_loads (store : Storage) (students courses fees : JSValue)
    (hstudents : loadOr store "students" (arr []) = .ok students)
    (hcourses : loadOr store "courses" (arr defaultCourses) = .ok courses)
    (hfees : loadOr store "fees" (arr []) = .ok fees) :
    initialState store = .ok ⟨students, courses, fees⟩ := by
  simp [initialState, hstudents, hcourses, hfees]

theorem initialState_persisted (students courses fees : List JSValue) (store : Storage)
    (hs : PlainKeysItems students) (hc : PlainKeysItems courses) (hf : PlainKeysItems fees) :
    initialState (persist ⟨arr students, arr courses, arr fees⟩ store) =
      .ok ⟨arr students, arr courses, arr fees⟩ :=
  initialState_of_loads _ _ _ _
    (loadOr_persisted _ "students" (arr []) students (persist_students _ _) hs)
    (loadOr_persisted _ "courses" (arr defaultCourses) courses (persist_courses _ _) hc)
    (loadOr_persisted _ "fees" (arr []) fees (persist_fees _ _) hf)

/-- C8. Startup on a store whose students and fees blobs load: when no course data has been
persisted, the loaded course collection is exactly Mathematics with fee 500 followed by
Science with fee 450, each once; when the stored course text denotes a sequence, the empty
one included, the loaded course collection is that sequence and the seeded defaults are not
added. Moreover, after the persistence effect wrote any three sequences (with plain object
keys), startup loads exactly these, so a persisted course sequence is never re-seeded. -/
theorem courses_seeded_once (store : Storage) (students fees : JSValue)
    (hstudents : loadOr store "students" (arr []) = .ok students)
    (hfees : loadOr store "fees" (arr []) = .ok fees) :
    (store "courses" = none →
      initialState store =
        .ok ⟨students,
          arr [obj [("id", num 1), ("name", str "Mathematics"), ("fee", num 500)],
               obj [("id", num 2), ("name", str "Science"), ("fee", num 450)]],
          fees⟩) ∧
    (∀ text items, store "courses" = some text → JSON.parse text = .ok (arr items) →
      initialState store = .ok ⟨students, arr items, fees⟩) ∧
    (∀ (other : Storage) (ss cs fs : List JSValue),
      PlainKeysItems ss → PlainKeysItems cs → PlainKeysItems fs →
      initialState (persist ⟨arr ss, arr cs, arr fs⟩ other) = .ok ⟨arr ss, arr cs, arr fs⟩) := by
  refine ⟨?_, ?_, ?_⟩
  · intro h
    exact initialState_of_loads store _ _ _ hstudents (loadOr_absent store _ _ h) hfees
  · intro text items h hp
    exact initialState_of_loads store _ _ _ hstudents (loadOr_array store _ text _ items h hp)
      hfees
  · intro other ss cs fs hs hc hf
    exact initialState_persisted ss cs fs other hs hc hf

/-- A first run starts with the two seeded courses; a store that holds the empty course
sequence, written as text or by the persistence effect, starts with no course. -/
theorem courses_seeded_once_witness :
    initialState emptyStore =
      .ok ⟨arr [],
        arr [obj [("id", num 1), ("name", str "Mathematics"), ("fee", num 500)],
             obj [("id", num 2), ("name", str "Science"), ("fee", num 450)]],
        arr []⟩ ∧
    initialState (setItem emptyStore "courses" "[]") = .ok ⟨arr [], arr [], arr []⟩ ∧
    initialState (persist ⟨arr laterStudents, arr [], arr orphanFees⟩ emptyStore) =
      .ok ⟨arr laterStudents, arr [], arr orphanFees⟩ :=
  ⟨(courses_seeded_once emptyStore (arr []) (arr []) rfl rfl).1 rfl,
   (courses_seeded_once (setItem emptyStore "courses" "[]") (arr []) (arr []) rfl rfl).2.1
     "[]" [] rfl rfl,
   (courses_seeded_once emptyStore (arr []) (arr []) rfl rfl).2.2 emptyStore laterStudents []
     orphanFees
     (plainKeysItems_append [] _ (by simp [PlainKeysItems]) (plainKeys_newStudent _ _ _))
     (by simp [PlainKeysItems])
     (plainKeysItems_append [] _ (by simp [PlainKeysItems]) (plainKeys_newFee _ _ _))⟩

/-- C9. For every students, courses and fees collection reachable from the first-run state
through `addStudent` and `addFee`, writing the three collections as the persistence effect
does and then loading them as startup does yields the same three collections, element for
element and in the same order. -/
theorem persist_then_load (students courses fees : List JSValue) (store : Storage)
    (h : Reachable students courses fees) :
    initialState (persist ⟨arr students, arr courses, arr fees⟩ store) =
      .ok ⟨arr students, arr courses, arr fees⟩ := by
  obtain ⟨hs, hc, hf⟩ := reachable_plainKeys h
  have h1 := loadOr_persisted (persist ⟨arr students, arr courses, arr fees⟩ store) "students"
    (arr []) students (persist_students _ _) hs
  have h2 := loadOr_persisted (persist ⟨arr students, arr courses, arr fees⟩ store) "courses"
    (arr defaultCourses) courses (persist_courses _ _) hc
  have h3 := loadOr_persisted (persist ⟨arr students, arr courses, arr fees⟩ store) "fees"
    (arr []) fees (persist_fees _ _) hf
  simp [initialState, h1, h2, h3]

/-- The state after one student and one fee have been added on a first run survives the
round trip. -/
theorem persist_then_load_witness :
    Reachable laterStudents defaultCourses orphanFees ∧
    initialState (persist ⟨arr laterStudents, arr defaultCourses, arr orphanFees⟩ emptyStore) =
      .ok ⟨arr laterStudents, arr defaultCourses, arr orphanFees⟩ :=
  ⟨Reachable.addStudent _ _ _ (Reachable.addFee _ _ _ Reachable.firstRun),
   persist_then_load laterStudents defaultCourses orphanFees emptyStore
     (Reachable.addStudent _ _ _ (Reachable.addFee _ _ _ Reachable.firstRun))⟩

end TutorialManager
